import Mathlib

/-!
# F3 AI Labs bot: message chunking, knowledge base lookups, context rules, command dispatch

A shallow embedding of the pure and state-passing parts of

* `src/bot-handlers/MessageHandler.js` (`splitResponse`, the context rules of
  `generateAIResponse`, `handleAIResponse`),
* `src/bot-managers/KnowledgeBase.js` (`interpolateLinks`, `getResponse`,
  `getCommandResponse`, `loadBundle`, the timer callback of `startHotReload`),
* `examples/bot-commands.js` (`processCommand`, `registerCommands`, `handleMessage`),

followed by the theorems that settle the specification's claims about them.

A JavaScript string is a sequence of UTF-16 code units.  It is embedded as a list in
which every element stands for one code unit, so `List.length` is the JavaScript
`length` property.
-/

set_option autoImplicit false

namespace F3Bot

/-- A JavaScript string, one list element per code unit. -/
abbrev JSString := List Char

/-! ## String primitives used by the sources -/

/-- The code units removed by `String.prototype.trim`: the ECMAScript `WhiteSpace`
and `LineTerminator` productions. -/
def isWhiteSpace (c : Char) : Bool :=
  let n := c.toNat
  n == 0x09 || n == 0x0A || n == 0x0B || n == 0x0C || n == 0x0D || n == 0x20 ||
  n == 0xA0 || n == 0x1680 || (0x2000 ≤ n && n ≤ 0x200A) || n == 0x2028 ||
  n == 0x2029 || n == 0x202F || n == 0x205F || n == 0x3000 || n == 0xFEFF

/-- The method `String.prototype.trim`: strip white space from both ends. -/
def trim (s : JSString) : JSString :=
  (s.dropWhile isWhiteSpace).rdropWhile isWhiteSpace

/-- The character class `[.!?]` of the sentence splitter. -/
def isSentencePunct (c : Char) : Bool :=
  c == '.' || c == '!' || c == '?'

/-- The call `text.split(/[.!?]+/)`: the pieces between maximal runs of `.`, `!`, `?`.
The flag records that the previous code unit belonged to a separator run, so that a
run of several punctuation marks separates only once.  A separator at the very start
or end of the text yields an empty first or last piece, as in JavaScript. -/
def splitOnPunctRuns : JSString → Bool → List JSString
  | [], _ => [[]]
  | c :: t, inRun =>
    if isSentencePunct c then
      if inRun then splitOnPunctRuns t true else [] :: splitOnPunctRuns t true
    else
      match splitOnPunctRuns t false with
      | piece :: rest => (c :: piece) :: rest
      | [] => [[c]]

/-- The call `response.split(/[.!?]+/)`. -/
def splitSentences (response : JSString) : List JSString :=
  splitOnPunctRuns response false

/-! ## `MessageHandler.splitResponse` -/

/-- The constant `const maxLength = 2000; // Discord message limit`. -/
def maxLength : Nat := 2000

/-- The loop state of `splitResponse`: the chunks pushed so far and `currentChunk`. -/
structure SplitState where
  chunks : List JSString
  currentChunk : JSString
deriving DecidableEq, Repr

/-- One iteration of `for (const sentence of sentences)` in `splitResponse`. -/
def splitStep (st : SplitState) (sentence : JSString) : SplitState :=
  let trimmedSentence := trim sentence
  if trimmedSentence = [] then st
  else
    let potentialChunk := st.currentChunk ++ trimmedSentence ++ ['.', ' ']
    if potentialChunk.length > maxLength ∧ st.currentChunk ≠ [] then
      { chunks := st.chunks ++ [trim st.currentChunk],
        currentChunk := trimmedSentence ++ ['.', ' '] }
    else
      { st with currentChunk := potentialChunk }

/-- The method `MessageHandler.splitResponse(response)`. -/
def splitResponse (response : JSString) : List JSString :=
  if response.length ≤ maxLength then
    [response]
  else
    let st := (splitSentences response).foldl splitStep { chunks := [], currentChunk := [] }
    if st.currentChunk ≠ [] then st.chunks ++ [trim st.currentChunk] else st.chunks

/-- The sentence units of a text: the trimmed, non-empty pieces between runs of
`.`, `!`, `?` — exactly the `trimmedSentence` values the loop does not skip. -/
def sentenceUnits (response : JSString) : List JSString :=
  ((splitSentences response).map trim).filter (fun u => u ≠ [])

/-! ## The loop invariant of `splitResponse` -/

/-- The units contributed by a list of raw sentences. -/
def unitsOf (sentences : List JSString) : List JSString :=
  (sentences.map trim).filter (fun u => u ≠ [])

/-- Invariant of the accumulation loop after the units `us` have been consumed. -/
structure SplitInv (us : List JSString) (st : SplitState) : Prop where
  chunk_ok : ∀ ch ∈ st.chunks, ch.length ≤ maxLength ∨ ∃ u ∈ us, ch = u ++ ['.']
  empty_start : st.currentChunk = [] → st.chunks = [] ∧ us = []
  head_ok : ∀ c t, st.currentChunk = c :: t → isWhiteSpace c = false
  tail_ok : st.currentChunk ≠ [] → ∃ body, st.currentChunk = body ++ ['.', ' ']
  size_ok : st.currentChunk ≠ [] →
    st.currentChunk.length ≤ maxLength ∨ ∃ u ∈ us, st.currentChunk = u ++ ['.', ' ']
  content : (st.chunks.map (fun ch => ch ++ [' '])).flatten ++ st.currentChunk
    = (us.map (fun u => u ++ ['.', ' '])).flatten

/-! ## JavaScript values

The values that `JSON.parse` produces, together with the built-in objects a property
read on such a value can reach through the prototype chain.  JSON numbers are kept as
integers (fractional numbers are floating point and outside the embedding), and their
conversion to a string is the decimal numeral, which is what JavaScript prints for an
integer below `10^21` in magnitude; larger numbers are outside the embedding as well. -/

/-- A JavaScript value. -/
inductive JSValue where
  | undefined
  | null
  | boolean (b : Bool)
  | number (n : Int)
  | string (s : JSString)
  | array (items : List JSValue)
  /-- A plain object: its own enumerable properties, in enumeration order. -/
  | object (props : List (JSString × JSValue))
  /-- A built-in function object, such as `Object.prototype.toString`. -/
  | native (name : JSString) (arity : Nat)
  /-- The object `Object.prototype` itself. -/
  | objectPrototype
  /-- An `Error` instance with its `name` and `message`. -/
  | error (name : JSString) (message : JSString)

/-- The own properties of a plain object. -/
abbrev JSObject := List (JSString × JSValue)

/-- The abstract operation `ToBoolean`. -/
def JSValue.truthy : JSValue → Bool
  | .undefined => false
  | .null => false
  | .boolean b => b
  | .number n => n != 0
  | .string s => !s.isEmpty
  | _ => true

/-- The operator `a || b`. -/
def jsOr (a b : JSValue) : JSValue :=
  if a.truthy then a else b

/-- A `TypeError` instance. -/
def typeError (message : JSString) : JSValue :=
  .error "TypeError".toList message

/-- The properties every plain object inherits from `Object.prototype`.  Reading
`__proto__` on a plain object yields `Object.prototype`. -/
def objectPrototypeMembers : JSObject :=
  [ ("constructor".toList, .native "Object".toList 1),
    ("__defineGetter__".toList, .native "__defineGetter__".toList 2),
    ("__defineSetter__".toList, .native "__defineSetter__".toList 2),
    ("hasOwnProperty".toList, .native "hasOwnProperty".toList 1),
    ("__lookupGetter__".toList, .native "__lookupGetter__".toList 1),
    ("__lookupSetter__".toList, .native "__lookupSetter__".toList 1),
    ("isPrototypeOf".toList, .native "isPrototypeOf".toList 1),
    ("propertyIsEnumerable".toList, .native "propertyIsEnumerable".toList 1),
    ("toString".toList, .native "toString".toList 0),
    ("valueOf".toList, .native "valueOf".toList 0),
    ("__proto__".toList, .objectPrototype),
    ("toLocaleString".toList, .native "toLocaleString".toList 0) ]

/-- The values found on `Object.prototype`: built-in functions and the prototype
object itself. -/
def isBuiltin : JSValue → Bool
  | .native _ _ => true
  | .objectPrototype => true
  | _ => false

/-- The property read `obj[key]` on a plain object: an own property if there is one,
otherwise the member inherited from `Object.prototype`, otherwise `undefined`. -/
def getProperty (obj : JSObject) (key : JSString) : JSValue :=
  match obj.lookup key with
  | some v => v
  | none =>
    match objectPrototypeMembers.lookup key with
    | some v => v
    | none => .undefined

mutual
/-- The abstract operation `ToString`.  A plain object converts through the inherited
`Object.prototype.toString`; an own `toString` property (never callable in parsed JSON)
makes the conversion throw a `TypeError`. -/
def toStringJS : JSValue → Except JSValue JSString
  | .undefined => .ok "undefined".toList
  | .null => .ok "null".toList
  | .boolean b => .ok (if b then "true".toList else "false".toList)
  | .number n => .ok (toString n).toList
  | .string s => .ok s
  | .array items => itemTexts items >>= fun ts => .ok (List.intercalate [','] ts)
  | .object props =>
    match props.lookup "toString".toList with
    | none => .ok "[object Object]".toList
    | some _ => .error (typeError "Cannot convert object to primitive value".toList)
  | .native name _ => .ok ("function ".toList ++ name ++ "() \x7b [native code] \x7d".toList)
  | .objectPrototype => .ok "[object Object]".toList
  | .error name message => .ok (name ++ ": ".toList ++ message)
termination_by structural v => v
/-- The texts `Array.prototype.join` puts between separators: the empty string for
`undefined` and `null`, `ToString` of the element otherwise. -/
def itemTexts : List JSValue → Except JSValue (List JSString)
  | [] => .ok []
  | .undefined :: rest => itemTexts rest >>= fun r => .ok ([] :: r)
  | .null :: rest => itemTexts rest >>= fun r => .ok ([] :: r)
  | v :: rest => toStringJS v >>= fun s => itemTexts rest >>= fun r => .ok (s :: r)
termination_by structural l => l
end

/-- The call `items.join(separator)`. -/
def joinItems (separator : JSString) (items : List JSValue) : Except JSValue JSString :=
  itemTexts items >>= fun ts => .ok (List.intercalate separator ts)

/-- The property read `value.length`; it throws on `undefined` and `null`. -/
def getLength : JSValue → Except JSValue JSValue
  | .undefined => .error (typeError "Cannot read properties of undefined (reading 'length')".toList)
  | .null => .error (typeError "Cannot read properties of null (reading 'length')".toList)
  | .string s => .ok (.number s.length)
  | .array items => .ok (.number items.length)
  | .object props => .ok (getProperty props "length".toList)
  | .native _ arity => .ok (.number arity)
  | _ => .ok .undefined

/-! ## `KnowledgeBase` -/

/-- The parsed knowledge bundle.  As in the configuration format, `responses`, `links`
and `commands_map` are JSON objects when present (`none` when the key is absent or
`null`); the values stored in them are arbitrary JSON values. -/
structure Bundle where
  responses : Option JSObject
  links : Option JSObject
  commands_map : Option JSObject

/-- The read `this.bundle?.responses?.[key]`; `this.bundle` is `null` (`none`) until a
bundle has been loaded. -/
def lookupResponse (bundle : Option Bundle) (key : JSString) : JSValue :=
  match bundle with
  | none => .undefined
  | some b =>
    match b.responses with
    | none => .undefined
    | some responses => getProperty responses key

/-- The method `KnowledgeBase.getResponse(key)`.  The result is what the method returns, or the
error thrown while the log line `length: ${response.length}` is built. -/
def getResponse (bundle : Option Bundle) (key : JSValue) : Except JSValue JSValue :=
  match key with
  | .string k =>
    if k = [] then .ok (.string [])
    else
      let response := jsOr (lookupResponse bundle k) (.string [])
      getLength response >>= fun len => toStringJS len >>= fun _ => .ok response
  | _ => .ok (.string [])

/-- The method `KnowledgeBase.getCommandsMap()`: `this.bundle?.commands_map || {}`. -/
def getCommandsMap (bundle : Option Bundle) : JSObject :=
  match bundle with
  | none => []
  | some b =>
    match b.commands_map with
    | none => []
    | some m => m

/-- The call `responseKeys.map(key => this.getResponse(key))`. -/
def getResponses (bundle : Option Bundle) : List JSValue → Except JSValue (List JSValue)
  | [] => .ok []
  | key :: keys =>
    getResponse bundle key >>= fun r => getResponses bundle keys >>= fun rs => .ok (r :: rs)

/-- The method `KnowledgeBase.getCommandResponse(command)`. -/
def getCommandResponse (bundle : Option Bundle) (command : JSString) :
    Except JSValue JSString :=
  match getProperty (getCommandsMap bundle) command with
  | .array responseKeys =>
    getResponses bundle responseKeys >>= fun responses =>
      joinItems ['\n', '\n'] (responses.filter JSValue.truthy)
  | _ => .ok []

/-- The text a response key resolves to: the string stored under the key, and the
empty text when the key is empty or nothing (or no string) is stored under it. -/
def resolvedText (bundle : Option Bundle) (key : JSString) : JSString :=
  if key = [] then []
  else
    match lookupResponse bundle key with
    | .string text => text
    | _ => []

/-- The character class `[a-z_]` of the placeholder pattern. -/
def isLinkKeyChar (c : Char) : Bool :=
  ('a'.toNat ≤ c.toNat && c.toNat ≤ 'z'.toNat) || c == '_'

/-- A match of `/\{links\.([a-z_]+)\}/` anchored at the start of `s`: the captured key.
The greedy `[a-z_]+` takes the longest run of key characters; a shorter run could only
be followed by another key character, never by the closing brace. -/
def matchPlaceholder : JSString → Option JSString
  | '{' :: 'l' :: 'i' :: 'n' :: 'k' :: 's' :: '.' :: rest =>
    match rest.takeWhile isLinkKeyChar, rest.dropWhile isLinkKeyChar with
    | c :: cs, '}' :: _ => some (c :: cs)
    | _, _ => none
  | _ => none

/-- The text of the placeholder with the given key, `{links.<key>}`. -/
def placeholderText (key : JSString) : JSString :=
  ['{', 'l', 'i', 'n', 'k', 's', '.'] ++ key ++ ['}']

/-- A stretch of a text as the global pattern sees it. -/
inductive Segment where
  | literal (c : Char)
  | placeholder (key : JSString)
deriving DecidableEq, Repr

/-- The left-to-right scan of a global `replace`: the successive non-overlapping
matches of the placeholder pattern and the code units between them.  `skip` counts the
code units of the current match that are still to be passed over. -/
def scanPlaceholders : JSString → Nat → List Segment
  | [], _ => []
  | _ :: t, skip + 1 => scanPlaceholders t skip
  | c :: t, 0 =>
    match matchPlaceholder (c :: t) with
    | some key => .placeholder key :: scanPlaceholders t (key.length + 7)
    | none => .literal c :: scanPlaceholders t 0

/-- The replacer callback `(match, key) => this.bundle.links?.[key] || match`. -/
def linkReplacement (links : Option JSObject) (key : JSString) : JSValue :=
  match links with
  | none => .string (placeholderText key)
  | some l => jsOr (getProperty l key) (.string (placeholderText key))

/-- The result string of the `replace` call: literals copied, each match replaced by
`ToString` of what the replacer returns, in order. -/
def expandSegments (links : Option JSObject) : List Segment → Except JSValue JSString
  | [] => .ok []
  | .literal c :: rest => expandSegments links rest >>= fun r => .ok (c :: r)
  | .placeholder key :: rest =>
    toStringJS (linkReplacement links key) >>= fun v =>
      expandSegments links rest >>= fun r => .ok (v ++ r)

/-- The helper `linkify(text)` of `interpolateLinks`. -/
def linkify (links : Option JSObject) (text : JSString) : Except JSValue JSString :=
  expandSegments links (scanPlaceholders text 0)

/-- The `forEach` loop of `interpolateLinks` over the entries of `responses`: string
values are replaced in place by their `linkify` result.  The second component is the
error that aborted the loop, if any; the entries before it have already been rewritten. -/
def interpolateEntries (links : Option JSObject) : JSObject → JSObject × Option JSValue
  | [] => ([], none)
  | (key, .string text) :: rest =>
    match linkify links text with
    | .ok text' =>
      let r := interpolateEntries links rest
      ((key, .string text') :: r.1, r.2)
    | .error e => ((key, .string text) :: rest, some e)
  | entry :: rest =>
    let r := interpolateEntries links rest
    (entry :: r.1, r.2)

/-- The method `KnowledgeBase.interpolateLinks()`: the bundle after the call and the error the
call threw, if any. -/
def interpolateLinks (bundle : Option Bundle) : Option Bundle × Option JSValue :=
  match bundle with
  | none => (none, none)
  | some b =>
    match b.responses with
    | none => (some b, none)
    | some responses =>
      let r := interpolateEntries b.links responses
      (some { b with responses := some r.1 }, r.2)

/-! ## Texts with placeholders, as the specification describes them -/

/-- A piece of a response text: a plain stretch, or a placeholder `{links.<key>}`. -/
inductive Piece where
  | plain (s : JSString)
  | placeholder (key : JSString)
deriving DecidableEq, Repr

/-- The text of a piece as written in the bundle file. -/
def Piece.source : Piece → JSString
  | .plain s => s
  | .placeholder key => placeholderText key

/-- The response text consisting of the given pieces. -/
def renderPieces (pieces : List Piece) : JSString :=
  (pieces.map Piece.source).flatten

/-- A plain stretch contains no opening brace; a placeholder key is a non-empty run of
lower-case letters and underscores. -/
def Piece.WellFormed : Piece → Prop
  | .plain s => '{' ∉ s
  | .placeholder key => key ≠ [] ∧ ∀ c ∈ key, isLinkKeyChar c = true

/-- What a piece is to become: a placeholder whose key has a non-empty string value in
`links` becomes that value, every other piece stays as written. -/
def expectedPiece (links : JSObject) : Piece → JSString
  | .plain s => s
  | .placeholder key =>
    match links.lookup key with
    | some (.string (c :: cs)) => c :: cs
    | _ => placeholderText key

/-- The text the pieces are to become. -/
def expectedText (links : JSObject) (pieces : List Piece) : JSString :=
  (pieces.map (expectedPiece links)).flatten

/-- The relation between an entry of `responses` before and after `interpolateLinks`:
the key is kept, a string value has become its `linkify` result, and any other value is
untouched. -/
def Interpolated (links : Option JSObject) (old new : JSString × JSValue) : Prop :=
  new.1 = old.1 ∧
  (∀ text, old.2 = .string text → ∃ t, linkify links text = .ok t ∧ new.2 = .string t) ∧
  ((∀ text, old.2 ≠ .string text) → new.2 = old.2)

/-! ## `MessageHandler.generateAIResponse`: the context rules -/

/-- The method `String.prototype.includes`. -/
def includes (s sub : JSString) : Bool :=
  s.tails.any (fun t => sub.isPrefixOf t)

/-- The character class `\d`. -/
def isDigit (c : Char) : Bool :=
  '0'.toNat ≤ c.toNat && c.toNat ≤ '9'.toNat

/-- A match of `/<@\d+>/` anchored at the start of `s`: the number of code units it
covers. -/
def matchMention : JSString → Option Nat
  | '<' :: '@' :: rest =>
    match rest.takeWhile isDigit, rest.dropWhile isDigit with
    | d :: ds, '>' :: _ => some ((d :: ds).length + 3)
    | _, _ => none
  | _ => none

/-- The call `content.replace(/<@\d+>/g, '')`; `skip` counts the code units of the current match
that are still to be dropped. -/
def removeMentions : JSString → Nat → JSString
  | [], _ => []
  | _ :: t, skip + 1 => removeMentions t skip
  | c :: t, 0 =>
    match matchMention (c :: t) with
    | some n => removeMentions t (n - 1)
    | none => c :: removeMentions t 0

/-- The binding `const userMessage = message.content.replace(/<@\d+>/g, '').trim()`. -/
def userMessage (content : JSString) : JSString :=
  trim (removeMentions content 0)

/-- The text that introduces the snippet in the system message. -/
def contextLabel : JSString := "\n\nRELEVANT CONTEXT: ".toList

/-- The `if … else if …` chain of `generateAIResponse` that sets `contextInfo` from
`lowerMessage`.  `R` is `kb.R`, the lookup of a response text in the knowledge base
module. -/
def contextInfo (R : JSString → JSString) (lowerMessage : JSString) : JSString :=
  if includes lowerMessage "zenthink".toList
      && (includes lowerMessage "website".toList || includes lowerMessage "site".toList) then
    contextLabel ++ R "zenthink_website".toList
  else if includes lowerMessage "pump".toList
      && (includes lowerMessage "website".toList || includes lowerMessage "site".toList) then
    contextLabel ++ R "pump_website".toList
  else if includes lowerMessage "zenthink".toList
      || includes lowerMessage "zen think".toList then
    contextLabel ++ R "zenthink_overview".toList
  else if includes lowerMessage "parlay".toList || includes lowerMessage "sports".toList then
    contextLabel ++ R "parlay_overview".toList
  else if includes lowerMessage "pump".toList || includes lowerMessage "pill".toList
      || includes lowerMessage "arena".toList then
    contextLabel ++ R "pump_overview".toList
  else if includes lowerMessage "trading".toList || includes lowerMessage "bot".toList then
    contextLabel ++ R "trading_overview".toList
  else if includes lowerMessage "status".toList || includes lowerMessage "update".toList then
    contextLabel ++ R "weekly_update_global".toList
  else
    []

/-- The `content` of the system message that `generateAIResponse` sends:
`systemPrompt + contextInfo`, with `lowerMessage = userMessage.toLowerCase()`.
`toLowerCase` is the built-in `String.prototype.toLowerCase`. -/
def systemContent (systemPrompt : JSString) (R : JSString → JSString)
    (toLowerCase : JSString → JSString) (content : JSString) : JSString :=
  systemPrompt ++ contextInfo R (toLowerCase (userMessage content))

/-! ### The rule list as the specification states it -/

/-- A context rule: a test on the lower-cased text and the key of its snippet. -/
structure ContextRule where
  applies : JSString → Bool
  key : JSString

/-- The seven rules in their fixed order. -/
def contextRules : List ContextRule :=
  [ { applies := fun m => includes m "zenthink".toList
        && (includes m "website".toList || includes m "site".toList),
      key := "zenthink_website".toList },
    { applies := fun m => includes m "pump".toList
        && (includes m "website".toList || includes m "site".toList),
      key := "pump_website".toList },
    { applies := fun m => includes m "zenthink".toList || includes m "zen think".toList,
      key := "zenthink_overview".toList },
    { applies := fun m => includes m "parlay".toList || includes m "sports".toList,
      key := "parlay_overview".toList },
    { applies := fun m => includes m "pump".toList || includes m "pill".toList
        || includes m "arena".toList,
      key := "pump_overview".toList },
    { applies := fun m => includes m "trading".toList || includes m "bot".toList,
      key := "trading_overview".toList },
    { applies := fun m => includes m "status".toList || includes m "update".toList,
      key := "weekly_update_global".toList } ]

/-- The key of the first rule that applies, if any. -/
def selectedKey (lowerMessage : JSString) : Option JSString :=
  (contextRules.find? (fun rule => rule.applies lowerMessage)).map (fun rule => rule.key)

/-! ## `processCommand` (examples/bot-commands.js) -/

/-- The messaging transport behind `message.reply`: the texts delivered so far, and the
fate of the coming reply attempts, one entry per attempt (`some e`: the promise rejects
with `e`; `none`, or no entry left: the text is delivered). -/
structure Transport where
  delivered : List JSString
  faults : List (Option JSValue)

/-- The call `await message.reply(text)`. -/
def reply (text : JSString) (t : Transport) : Except JSValue Unit × Transport :=
  match t.faults with
  | some e :: rest => (.error e, { t with faults := rest })
  | none :: rest => (.ok (), { delivered := t.delivered ++ [text], faults := rest })
  | [] => (.ok (), { t with delivered := t.delivered ++ [text] })

/-- A command handler, `async (message) => …`: it returns a value or throws, and may
use the transport of the message. -/
abbrev Handler := Transport → Except JSValue JSValue × Transport

/-- A run of `processCommand`: the value returned or the error propagated to the
caller, the transport afterwards, and the names of the handlers that were invoked. -/
structure Dispatch where
  outcome : Except JSValue JSValue
  transport : Transport
  invoked : List JSString

/-- The object literal `{ success: false, reason }`. -/
def failureResult (reason : JSValue) : JSValue :=
  .object [("success".toList, .boolean false), ("reason".toList, reason)]

/-- The object `{ success: false, reason: 'Unknown command' }`. -/
def unknownCommandResult : JSValue :=
  failureResult (.string "Unknown command".toList)

/-- The reply sent for an unknown command: the template with `commandName` between
backticks. -/
def unknownCommandReply (commandName : JSString) : JSString :=
  "❌ Unknown command: \x60".toList ++ commandName ++ "\x60".toList

/-- The reply sent from the `catch` block. -/
def errorReply : JSString :=
  "❌ An error occurred while processing your command.".toList

/-- The property read `error.message`; it throws on `undefined` and `null`. -/
def getMessage : JSValue → Except JSValue JSValue
  | .undefined =>
    .error (typeError "Cannot read properties of undefined (reading 'message')".toList)
  | .null => .error (typeError "Cannot read properties of null (reading 'message')".toList)
  | .error _ message => .ok (.string message)
  | .object props => .ok (getProperty props "message".toList)
  | _ => .ok .undefined

/-- The `try` block of `processCommand`: what it returns or throws, the transport
afterwards, and the handlers it invoked.  `commands` is the `Map` from names to
handlers; reading `result.success` for the log line throws when the handler returned
`undefined` or `null`. -/
def processCommandTry (commandName : JSString) (commands : List (JSString × Handler))
    (t : Transport) : Except JSValue JSValue × Transport × List JSString :=
  match commands.lookup commandName with
  | none =>
    match reply (unknownCommandReply commandName) t with
    | (.ok _, t1) => (.ok unknownCommandResult, t1, [])
    | (.error e, t1) => (.error e, t1, [])
  | some handler =>
    match handler t with
    | (.ok .undefined, t1) =>
      (.error (typeError "Cannot read properties of undefined (reading 'success')".toList),
        t1, [commandName])
    | (.ok .null, t1) =>
      (.error (typeError "Cannot read properties of null (reading 'success')".toList),
        t1, [commandName])
    | (.ok result, t1) => (.ok result, t1, [commandName])
    | (.error e, t1) => (.error e, t1, [commandName])

/-- The function `processCommand(message, commandName, commands)`. -/
def processCommand (commandName : JSString) (commands : List (JSString × Handler))
    (t : Transport) : Dispatch :=
  match processCommandTry commandName commands t with
  | (.ok result, t1, invoked) => { outcome := .ok result, transport := t1, invoked := invoked }
  | (.error error, t1, invoked) =>
    match reply errorReply t1 with
    | (.error e, t2) => { outcome := .error e, transport := t2, invoked := invoked }
    | (.ok _, t2) =>
      { outcome := (getMessage error).map failureResult, transport := t2, invoked := invoked }

/-! ## `KnowledgeBase`: loading and hot reload -/

/-- The state of the `KnowledgeBase` instance: `this.bundle` (`null` until a bundle has
been loaded) and `this.lastModified` (`null` until a modification time has been
recorded, then the milliseconds of `stats.mtime.getTime()`). -/
structure KnowledgeBase where
  bundle : Option Bundle
  lastModified : Option Int

/-- What the file system answers for the bundle file during one operation:
`fs.statSync(path).mtime.getTime()` and `fs.readFileSync(path, 'utf-8')`, each either
a value or the error thrown (file missing, unreadable). -/
structure BundleFile where
  stat : Except JSValue Int
  read : Except JSValue JSString

/-- The error thrown by the `catch` block of `loadBundle`:
`new Error("Knowledge base initialization failed: " + error.message)`; when reading or
converting `error.message` throws, that error is thrown instead. -/
def loadFailure (error : JSValue) : JSValue :=
  match getMessage error >>= toStringJS with
  | .ok message =>
    .error "Error".toList ("Knowledge base initialization failed: ".toList ++ message)
  | .error e => e

/-- The method `KnowledgeBase.loadBundle()`: the state afterwards and the error thrown,
if any.  `parse` is the built-in `JSON.parse`, giving the parsed bundle (`none` for the
JSON text `null`) or throwing a `SyntaxError`.  The parsed value is assigned to
`this.bundle` before `interpolateLinks` runs on it. -/
def loadBundle (parse : JSString → Except JSValue (Option Bundle)) (file : BundleFile)
    (kb : KnowledgeBase) : KnowledgeBase × Option JSValue :=
  match file.read with
  | .error e => (kb, some (loadFailure e))
  | .ok bundleData =>
    match parse bundleData with
    | .error e => (kb, some (loadFailure e))
    | .ok parsed =>
      let r := interpolateLinks parsed
      match r.2 with
      | none => ({ kb with bundle := r.1 }, none)
      | some e => ({ kb with bundle := r.1 }, some (loadFailure e))

/-- The test `!this.lastModified`: true for `null` and for the number `0`. -/
def notRecorded : Option Int → Bool
  | none => true
  | some m => m == 0

/-- The test `lastModified > this.lastModified`; `null` compares as `0`. -/
def newerThan (lastModified : Int) (recorded : Option Int) : Bool :=
  decide (lastModified > recorded.getD 0)

/-- One run of the timer callback of `startHotReload`: the state afterwards, whether
`loadBundle` was called, and the error that left the callback (its whole body is inside
`try … catch`, and the `catch` block only logs). -/
structure TickResult where
  kb : KnowledgeBase
  reloaded : Bool
  raised : Option JSValue

/-- The timer callback of `startHotReload`. -/
def hotReloadTick (parse : JSString → Except JSValue (Option Bundle)) (file : BundleFile)
    (kb : KnowledgeBase) : TickResult :=
  match file.stat with
  | .error _ => { kb := kb, reloaded := false, raised := none }
  | .ok lastModified =>
    if notRecorded kb.lastModified || newerThan lastModified kb.lastModified then
      let r := loadBundle parse file kb
      match r.2 with
      | some _ => { kb := r.1, reloaded := true, raised := none }
      | none =>
        { kb := { r.1 with lastModified := some lastModified }, reloaded := true,
          raised := none }
    else
      { kb := kb, reloaded := false, raised := none }

/-! ## `MessageHandler.handleAIResponse` -/

/-- The object `{ success: true }`. -/
def successResult : JSValue :=
  .object [("success".toList, .boolean true)]

/-- What `rateLimitManager.processMessage` returns. -/
structure RateLimitResult where
  shouldRateLimit : Bool
  remainingCooldown : Nat
  reason : JSValue

/-- What `generateAIResponse` returns: `{success: true, content}` or
`{success: false, reason}`. -/
inductive GenerationResult where
  | success (content : JSString)
  | failure (reason : JSValue)

/-- The collaborators of one call of `handleAIResponse`: whether `this.openai` is set,
whether `message.guild` is set, what `rateLimitManager.processMessage` returns or
throws, how `embedManager.createErrorEmbed(title, description)` renders (or throws), and
what the completion request yields: the `content` of the first choice (`none` when it
is missing) or the error thrown on the way. -/
structure AIContext where
  openaiConfigured : Bool
  inGuild : Bool
  processMessage : Except JSValue RateLimitResult
  createErrorEmbed : JSString → JSString → Except JSValue JSString
  completion : Except JSValue (Option JSString)

/-- The end of `generateAIResponse`: an empty or missing `content` gives the failure
`No response generated from AI`, and an error thrown before is turned by the `catch`
block into the failure `OpenAI API error: …` (reading `error.message` can itself
throw). -/
def generateAIResponse (completion : Except JSValue (Option JSString)) :
    Except JSValue GenerationResult :=
  match completion with
  | .ok (some (c :: cs)) => .ok (.success (c :: cs))
  | .ok _ => .ok (.failure (.string "No response generated from AI".toList))
  | .error error =>
    (getMessage error >>= toStringJS).map
      (fun message => .failure (.string ("OpenAI API error: ".toList ++ message)))

/-- The description of the rate limit embed, with
`Math.ceil(remainingCooldown / 1000)` seconds. -/
def waitNotice (remainingCooldown : Nat) : JSString :=
  "Please wait ".toList ++ (Nat.repr ((remainingCooldown + 999) / 1000)).toList
    ++ " seconds before asking again.".toList

/-- The reply sent when the generation failed. -/
def apology : JSString :=
  "❌ Sorry, I encountered an error processing your request.".toList

/-- The loop over the chunks: `message.reply` for the first, `message.channel.send` for
the others, both through the transport of the message; it stops at the first send
that is rejected. -/
def sendChunks : List JSString → Transport → Except JSValue Unit × Transport
  | [], t => (.ok (), t)
  | chunk :: chunks, t =>
    match reply chunk t with
    | (.error e, t1) => (.error e, t1)
    | (.ok _, t1) => sendChunks chunks t1

/-- The `try` block of `handleAIResponse`: what it returns or throws, and the transport
afterwards. -/
def handleAIResponseTry (ctx : AIContext) (t : Transport) :
    Except JSValue JSValue × Transport :=
  if !ctx.openaiConfigured then
    (.ok (failureResult (.string "OpenAI API key not configured".toList)), t)
  else if !ctx.inGuild then
    (.ok (failureResult (.string "AI responses only available in servers".toList)), t)
  else
    match ctx.processMessage with
    | .error e => (.error e, t)
    | .ok rateLimitResult =>
      if rateLimitResult.shouldRateLimit then
        match ctx.createErrorEmbed "Rate Limited".toList
            (waitNotice rateLimitResult.remainingCooldown) with
        | .error e => (.error e, t)
        | .ok embed =>
          match reply embed t with
          | (.error e, t1) => (.error e, t1)
          | (.ok _, t1) => (.ok (failureResult rateLimitResult.reason), t1)
      else
        match generateAIResponse ctx.completion with
        | .error e => (.error e, t)
        | .ok (.success content) =>
          match sendChunks (splitResponse content) t with
          | (.error e, t1) => (.error e, t1)
          | (.ok _, t1) => (.ok successResult, t1)
        | .ok (.failure reason) =>
          match reply apology t with
          | (.error e, t1) => (.error e, t1)
          | (.ok _, t1) => (.ok (failureResult reason), t1)

/-- A run of `handleAIResponse`: the result returned (or the error that leaves the
`catch` block) and the transport afterwards. -/
structure AIRun where
  outcome : Except JSValue JSValue
  transport : Transport

/-- The method `MessageHandler.handleAIResponse(message)`: an error thrown in the `try`
block is logged and turned into the failure `AI response failed: …`, with no reply. -/
def handleAIResponse (ctx : AIContext) (t : Transport) : AIRun :=
  match handleAIResponseTry ctx t with
  | (.ok result, t1) => { outcome := .ok result, transport := t1 }
  | (.error error, t1) =>
    { outcome := (getMessage error >>= toStringJS).map
        (fun message => failureResult (.string ("AI response failed: ".toList ++ message))),
      transport := t1 }

/-! ## `handleMessage` (examples/bot-commands.js) -/

/-- What `handleMessage` reads of a message: `message.author.bot` and
`message.content`. -/
structure Message where
  authorIsBot : Bool
  content : JSString

/-- The call `text.split(pattern)` for a pattern `[…]+` over the class `p`: the pieces
between maximal runs of code units in `p`.  The flag records that the previous code
unit belonged to a separator run. -/
def splitOnRuns (p : Char → Bool) : JSString → Bool → List JSString
  | [], _ => [[]]
  | c :: t, inRun =>
    if p c then
      if inRun then splitOnRuns p t true else [] :: splitOnRuns p t true
    else
      match splitOnRuns p t false with
      | piece :: rest => (c :: piece) :: rest
      | [] => [[c]]

/-- The class of the pattern `/ +/`: the space U+0020 only. -/
def isSpace (c : Char) : Bool :=
  c == ' '

/-- The binding `const args = message.content.slice(prefix.length).trim().split(/ +/)`,
with `prefix = '!'`. -/
def commandArgs (content : JSString) : List JSString :=
  splitOnRuns isSpace (trim (content.drop 1)) false

/-- The binding `const commandName = args.shift().toLowerCase()`; `toLowerCase` is the
built-in `String.prototype.toLowerCase`. -/
def commandNameOf (toLowerCase : JSString → JSString) (content : JSString) : JSString :=
  toLowerCase ((commandArgs content).headD [])

/-- The five handlers that `registerCommands` binds; their bodies use the knowledge
base module and the embed builder. -/
structure CommandHandlers where
  handleAboutCommand : Handler
  handleZenThinkCommand : Handler
  handleWebsiteCommand : Handler
  handleHelpCommand : Handler
  handleStatusCommand : Handler

/-- The function `registerCommands()`: the map from command names to handlers. -/
def registerCommands (handlers : CommandHandlers) : List (JSString × Handler) :=
  [ ("about".toList, handlers.handleAboutCommand),
    ("zenthink".toList, handlers.handleZenThinkCommand),
    ("website".toList, handlers.handleWebsiteCommand),
    ("help".toList, handlers.handleHelpCommand),
    ("status".toList, handlers.handleStatusCommand) ]

/-- The function `handleMessage(message)`: `none` when the message is ignored (sent by
a bot, or not starting with the prefix), otherwise the command name passed to
`processCommand` and the run of `processCommand`.  An error leaving `processCommand`
is caught and logged. -/
def handleMessage (toLowerCase : JSString → JSString) (handlers : CommandHandlers)
    (message : Message) (t : Transport) : Option (JSString × Dispatch) :=
  if message.authorIsBot then none
  else
    match message.content with
    | '!' :: _ =>
      let commandName := commandNameOf toLowerCase message.content
      some (commandName, processCommand commandName (registerCommands handlers) t)
    | _ => none

/-- The first token of a text when only spaces delimit tokens. -/
def firstSpaceToken (s : JSString) : JSString :=
  s.takeWhile (fun c => !isSpace c)

/-- The first token of a text when any white space delimits tokens. -/
def firstWhiteSpaceToken (s : JSString) : JSString :=
  s.takeWhile (fun c => !isWhiteSpace c)

/-- Lower-casing of ASCII letters; on ASCII text this is what
`String.prototype.toLowerCase` returns. -/
def asciiLowerCase (s : JSString) : JSString :=
  s.map Char.toLower

/-! ## The placeholder pattern, as the specification describes it -/

/-- The characters a placeholder key may consist of: the lower-case letters `a` to `z`
and the underscore. -/
def keyAlphabet : JSString := "abcdefghijklmnopqrstuvwxyz_".toList

/-- A key the pattern accepts: a non-empty run of characters of the key alphabet. -/
def ValidKey (key : JSString) : Prop :=
  key ≠ [] ∧ ∀ c ∈ key, c ∈ keyAlphabet

/-- The text begins with a placeholder `{links.<key>}` whose key the pattern accepts. -/
def StartsWithPlaceholder (text : JSString) : Prop :=
  ∃ key rest, ValidKey key ∧ text = placeholderText key ++ rest

/-- What a placeholder with the given key is to become: the value of the key in `links`
when that is a non-empty string, the placeholder exactly as written otherwise. -/
def resolvedLink (links : JSObject) (key : JSString) : JSString :=
  match links.lookup key with
  | some (.string (c :: cs)) => c :: cs
  | _ => placeholderText key

/-- The relation between a response text and the text it is to become: read from left
to right, every placeholder with an accepted key is replaced by its resolved link, and
every code unit that does not begin such a placeholder is copied. -/
inductive Expands (links : JSObject) : JSString → JSString → Prop where
  | done : Expands links [] []
  | placeholder (key rest out : JSString) : ValidKey key → Expands links rest out →
      Expands links (placeholderText key ++ rest) (resolvedLink links key ++ out)
  | copy (c : Char) (rest out : JSString) : ¬ StartsWithPlaceholder (c :: rest) →
      Expands links rest out → Expands links (c :: rest) (c :: out)

/-- No placeholder of the text has a key that is absent from `links` but names a member
of `Object.prototype`. -/
def NoInheritedKey (links : JSObject) (text : JSString) : Prop :=
  ∀ key, links.lookup key = none → objectPrototypeMembers.lookup key ≠ none →
    ¬ (placeholderText key <:+: text)

/-! ## Mentions, as the specification describes them -/

/-- The decimal digits. -/
def digitAlphabet : JSString := "0123456789".toList

/-- The text of a user mention with the given digits, `<@digits>`. -/
def mentionText (digits : JSString) : JSString :=
  ['<', '@'] ++ digits ++ ['>']

/-- A non-empty run of decimal digits. -/
def ValidDigits (digits : JSString) : Prop :=
  digits ≠ [] ∧ ∀ d ∈ digits, d ∈ digitAlphabet

/-- The text begins with a user mention `<@digits>`. -/
def StartsWithMention (text : JSString) : Prop :=
  ∃ digits rest, ValidDigits digits ∧ text = mentionText digits ++ rest

/-- The relation between a message text and the same text without its user mentions:
read from left to right, every mention is dropped and every code unit that does not
begin a mention is kept. -/
inductive MentionsStripped : JSString → JSString → Prop where
  | done : MentionsStripped [] []
  | mention (digits rest out : JSString) : ValidDigits digits → MentionsStripped rest out →
      MentionsStripped (mentionText digits ++ rest) out
  | keep (c : Char) (rest out : JSString) : ¬ StartsWithMention (c :: rest) →
      MentionsStripped rest out → MentionsStripped (c :: rest) (c :: out)

/-! ## Concrete inputs -/

/-- The sentence `Hi!` followed by `n` letters `b`. -/
def exclaimThen (n : Nat) : JSString := ['H', 'i', '!'] ++ List.replicate n 'b'

/-- A text of 2002 code units: the sentence `Hi!` followed by 1999 letters `b`. -/
def exclaimText : JSString := exclaimThen 1999

/-- The bundle of the specification's scenario:
`{responses: {a: "X"}, commands_map: {cmd: ["a", "missing"]}}`. -/
def scenarioBundle : Bundle :=
  { responses := some [("a".toList, .string "X".toList)],
    links := none,
    commands_map := some [("cmd".toList, .array [.string "a".toList, .string "missing".toList])] }

/-- The bundle `{responses: {a: "X"}, commands_map: {cmd: ["a", "constructor"]}}`: the
second key of `cmd` is not a key of `responses`. -/
def inheritedKeyBundle : Bundle :=
  { responses := some [("a".toList, .string "X".toList)],
    links := none,
    commands_map :=
      some [("cmd".toList, .array [.string "a".toList, .string "constructor".toList])] }

/-- The bundle `{responses: {docs: "See {links.Docs}", blank: "[{links.blank}]"},
links: {Docs: "https://docs.example", blank: ""}}`: one link key with a capital letter,
one link with the empty string as its value. -/
def oddLinksBundle : Bundle :=
  { responses := some [("docs".toList, .string "See \x7blinks.Docs\x7d".toList),
      ("blank".toList, .string "[\x7blinks.blank\x7d]".toList)],
    links := some [("Docs".toList, .string "https://docs.example".toList),
      ("blank".toList, .string [])],
    commands_map := none }

/-- The bundle `{responses: {site: "Visit {links.site} or {links.docs}.", n: 7},
links: {site: "https://f3.example"}}`. -/
def siteBundle : Bundle :=
  { responses := some [("site".toList,
        .string "Visit \x7blinks.site\x7d or \x7blinks.docs\x7d.".toList),
      ("n".toList, .number 7)],
    links := some [("site".toList, .string "https://f3.example".toList)],
    commands_map := none }

/-- A handler that throws `new Error('boom')` without replying. -/
def throwingHandler : Handler :=
  fun t => (.error (.error "Error".toList "boom".toList), t)

/-- A transport whose next reply attempt rejects with `Error: Missing Permissions`. -/
def rejectingTransport : Transport :=
  { delivered := [], faults := [some (.error "Error".toList "Missing Permissions".toList)] }

/-- A transport that delivers every reply. -/
def workingTransport : Transport :=
  { delivered := [], faults := [] }

/-- The bundle parsed from a file whose second link is an object with an own `toString`
entry: `{responses: {greet: "Hi {links.home}", docs: "See {links.docs}"},
links: {home: "https://f3.example", docs: {toString: null}}}`. -/
def brokenLinkBundle : Bundle :=
  { responses := some [("greet".toList, .string "Hi \x7blinks.home\x7d".toList),
      ("docs".toList, .string "See \x7blinks.docs\x7d".toList)],
    links := some [("home".toList, .string "https://f3.example".toList),
      ("docs".toList, .object [("toString".toList, .null)])],
    commands_map := none }

/-- The JSON text that denotes `brokenLinkBundle`. -/
def brokenLinkText : JSString :=
  ("\x7b\"responses\":\x7b\"greet\":\"Hi \x7blinks.home\x7d\"," ++
   "\"docs\":\"See \x7blinks.docs\x7d\"\x7d," ++
   "\"links\":\x7b\"home\":\"https://f3.example\"," ++
   "\"docs\":\x7b\"toString\":null\x7d\x7d\x7d").toList

/-- The JSON text that denotes `siteBundle`. -/
def siteText : JSString :=
  ("\x7b\"responses\":\x7b\"site\":\"Visit \x7blinks.site\x7d or \x7blinks.docs\x7d.\"," ++
   "\"n\":7\x7d,\"links\":\x7b\"site\":\"https://f3.example\"\x7d\x7d").toList

/-- A bundle file that can be read, with modification time `mtime` and content `text`. -/
def readableFile (mtime : Int) (text : JSString) : BundleFile :=
  { stat := .ok mtime, read := .ok text }

/-- The built-in `JSON.parse` as far as one text is concerned: `text` denotes `bundle`;
any other text is rejected here. -/
def parseAs (text : JSString) (bundle : Bundle) : JSString → Except JSValue (Option Bundle) :=
  fun data =>
    if data = text then .ok (some bundle)
    else .error (.error "SyntaxError".toList "Unexpected token".toList)

/-- A `JSON.parse` that rejects the text of the file. -/
def parseRejects : JSString → Except JSValue (Option Bundle) :=
  fun _ => .error (.error "SyntaxError".toList "Unexpected token".toList)

/-- A store serving `scenarioBundle`, with recorded modification time `recorded`. -/
def servingStore (recorded : Int) : KnowledgeBase :=
  { bundle := some scenarioBundle, lastModified := some recorded }

/-- A handler that replies with `text` and returns `{ success: true }`. -/
def replyingHandler (text : JSString) : Handler :=
  fun t =>
    match reply text t with
    | (.ok _, t1) => (.ok successResult, t1)
    | (.error e, t1) => (.error e, t1)

/-- Five handlers that each reply with the name of their command. -/
def sampleHandlers : CommandHandlers :=
  { handleAboutCommand := replyingHandler "about".toList,
    handleZenThinkCommand := replyingHandler "zenthink".toList,
    handleWebsiteCommand := replyingHandler "website".toList,
    handleHelpCommand := replyingHandler "help".toList,
    handleStatusCommand := replyingHandler "status".toList }

/-- A call with no API client configured. -/
def unconfiguredContext : AIContext :=
  { openaiConfigured := false, inGuild := true,
    processMessage :=
      .ok { shouldRateLimit := false, remainingCooldown := 0, reason := .undefined },
    createErrorEmbed := fun title description => .ok (title ++ ": ".toList ++ description),
    completion := .ok (some "Hello.".toList) }

/-- A call in a server, with the client configured, during which the rate limiter throws
`Error: limiter down`. -/
def limiterDownContext : AIContext :=
  { openaiConfigured := true, inGuild := true,
    processMessage := .error (.error "Error".toList "limiter down".toList),
    createErrorEmbed := fun title description => .ok (title ++ ": ".toList ++ description),
    completion := .ok (some "Hello.".toList) }

/-- A call in a server, with the client configured, by a user who is rate limited for
another 4200 milliseconds. -/
def rateLimitedContext : AIContext :=
  { openaiConfigured := true, inGuild := true,
    processMessage :=
      .ok { shouldRateLimit := true, remainingCooldown := 4200, reason := .string "Cooldown".toList },
    createErrorEmbed := fun title description => .ok (title ++ ": ".toList ++ description),
    completion := .ok (some "Hello.".toList) }

/-! # Theorems -/

/-! ## Lemmas about `trim` -/

theorem trim_length_le (s : JSString) : (trim s).length ≤ s.length := by
  unfold trim
  exact le_trans (List.rdropWhile_prefix isWhiteSpace _).length_le
    (List.dropWhile_suffix isWhiteSpace).length_le

theorem dropWhile_head_not {p : Char → Bool} :
    ∀ (s : JSString) (c : Char) (t : JSString), s.dropWhile p = c :: t → p c = false
  | [], _, _, h => by simp at h
  | a :: s, c, t, h => by
    by_cases ha : p a = true
    · rw [List.dropWhile_cons_of_pos ha] at h
      exact dropWhile_head_not s c t h
    · rw [List.dropWhile_cons_of_neg ha] at h
      cases h
      simpa using ha

/-- The first code unit of a non-empty trimmed string is not white space. -/
theorem trim_head_not_ws (s : JSString) (c : Char) (t : JSString) (h : trim s = c :: t) :
    isWhiteSpace c = false := by
  unfold trim at h
  obtain ⟨r, hr⟩ := List.rdropWhile_prefix isWhiteSpace (s.dropWhile isWhiteSpace)
  rw [h] at hr
  exact dropWhile_head_not s c (t ++ r) (by simpa using hr.symm)

/-- Trimming a string that starts with a non-blank unit and ends in `". "` removes
exactly the final space. -/
theorem trim_of_terminated (c : Char) (t body : JSString) (hc : isWhiteSpace c = false)
    (h : c :: t = body ++ ['.', ' ']) : trim (c :: t) = body ++ ['.'] := by
  unfold trim
  rw [List.dropWhile_cons_of_neg (by simp [hc]), h]
  have e : body ++ ['.', ' '] = (body ++ ['.']) ++ [' '] := by simp
  rw [e, List.rdropWhile_concat_pos _ _ _ (by decide), List.rdropWhile_concat_neg _ _ _ (by decide)]

/-! ## The accumulation loop of `splitResponse` -/

theorem SplitInv.trim_current {us : List JSString} {st : SplitState} (inv : SplitInv us st)
    (hne : st.currentChunk ≠ []) : trim st.currentChunk ++ [' '] = st.currentChunk := by
  obtain ⟨body, hb⟩ := inv.tail_ok hne
  cases hcur : st.currentChunk with
  | nil => exact absurd hcur hne
  | cons c t =>
    have hc := inv.head_ok c t hcur
    rw [hcur] at hb
    rw [trim_of_terminated c t body hc hb, hb]
    simp

theorem SplitInv.trim_current_ok {us : List JSString} {st : SplitState} (inv : SplitInv us st)
    (hne : st.currentChunk ≠ []) :
    (trim st.currentChunk).length ≤ maxLength ∨ ∃ u ∈ us, trim st.currentChunk = u ++ ['.'] := by
  rcases inv.size_ok hne with h | ⟨u, hu, h⟩
  · exact Or.inl (le_trans (trim_length_le _) h)
  · refine Or.inr ⟨u, hu, ?_⟩
    have e : trim st.currentChunk ++ [' '] = (u ++ ['.']) ++ [' '] := by
      rw [inv.trim_current hne, h]
      simp
    exact List.append_cancel_right e

theorem splitInv_init : SplitInv [] { chunks := [], currentChunk := [] } where
  chunk_ok := by simp
  empty_start := by simp
  head_ok := by simp
  tail_ok := by simp
  size_ok := by simp
  content := by simp

theorem unitsOf_cons (s : JSString) (ss : List JSString) :
    unitsOf (s :: ss) = (if trim s = [] then [] else [trim s]) ++ unitsOf ss := by
  unfold unitsOf
  by_cases h : trim s = [] <;> simp [h]

theorem splitInv_step {us : List JSString} {st : SplitState} (inv : SplitInv us st)
    (s : JSString) :
    SplitInv (us ++ (if trim s = [] then [] else [trim s])) (splitStep st s) := by
  unfold splitStep
  by_cases hs : trim s = []
  · simpa [hs] using inv
  · simp only [hs, if_false]
    obtain ⟨c0, t0, hct⟩ : ∃ c t, trim s = c :: t := by
      cases h : trim s with
      | nil => exact absurd h hs
      | cons c t => exact ⟨c, t, rfl⟩
    have hc0 := trim_head_not_ws s c0 t0 hct
    by_cases hcond : (st.currentChunk ++ trim s ++ ['.', ' ']).length > maxLength
        ∧ st.currentChunk ≠ []
    · rw [if_pos hcond]
      have hne := hcond.2
      refine ⟨?_, ?_, ?_, ?_, ?_, ?_⟩
      · intro ch hch
        simp only [List.mem_append, List.mem_singleton] at hch
        rcases hch with hch | hch
        · rcases inv.chunk_ok ch hch with h | ⟨u, hu, h⟩
          · exact Or.inl h
          · exact Or.inr ⟨u, List.mem_append_left _ hu, h⟩
        · subst hch
          rcases inv.trim_current_ok hne with h | ⟨u, hu, h⟩
          · exact Or.inl h
          · exact Or.inr ⟨u, List.mem_append_left _ hu, h⟩
      · intro h
        simp at h
      · intro c t h
        simp only [hct, List.cons_append] at h
        cases h
        exact hc0
      · intro _
        exact ⟨trim s, rfl⟩
      · intro _
        exact Or.inr ⟨trim s, by simp, rfl⟩
      · have e := inv.content
        simp only [List.map_append, List.flatten_append, List.map_cons, List.map_nil,
          List.flatten_cons, List.flatten_nil, List.append_nil]
        rw [← e, inv.trim_current hne]
    · rw [if_neg hcond]
      refine ⟨?_, ?_, ?_, ?_, ?_, ?_⟩
      · intro ch hch
        rcases inv.chunk_ok ch hch with h | ⟨u, hu, h⟩
        · exact Or.inl h
        · exact Or.inr ⟨u, List.mem_append_left _ hu, h⟩
      · intro h
        simp at h
      · intro c t h
        cases hcur : st.currentChunk with
        | nil =>
          simp only [hcur, hct, List.nil_append, List.cons_append] at h
          cases h
          exact hc0
        | cons c1 t1 =>
          simp only [hcur, List.cons_append] at h
          cases h
          exact inv.head_ok c t1 hcur
      · intro _
        exact ⟨st.currentChunk ++ trim s, by simp⟩
      · intro _
        by_cases hcur : st.currentChunk = []
        · refine Or.inr ⟨trim s, by simp, ?_⟩
          simp [hcur]
        · left
          by_contra hgt
          exact hcond ⟨by simpa using hgt, hcur⟩
      · have e := inv.content
        simp only [List.map_append, List.flatten_append, List.map_cons, List.map_nil,
          List.flatten_cons, List.flatten_nil, List.append_nil]
        rw [← e]
        simp

theorem splitInv_foldl (ss : List JSString) :
    ∀ {us : List JSString} {st : SplitState}, SplitInv us st →
      SplitInv (us ++ unitsOf ss) (ss.foldl splitStep st) := by
  induction ss with
  | nil => intro us st inv; simpa [unitsOf] using inv
  | cons s ss ih =>
    intro us st inv
    have h := ih (splitInv_step inv s)
    rw [unitsOf_cons, ← List.append_assoc]
    exact h

/-- The invariant holds of the loop's final state, for all the units of the text. -/
theorem splitInv_final (response : JSString) :
    SplitInv (sentenceUnits response)
      ((splitSentences response).foldl splitStep { chunks := [], currentChunk := [] }) := by
  have h := splitInv_foldl (splitSentences response) splitInv_init
  simpa [unitsOf, sentenceUnits] using h



theorem intercalate_space_append (l : List JSString) (hl : l ≠ []) :
    List.intercalate [' '] l ++ [' '] = (l.map (fun ch => ch ++ [' '])).flatten := by
  induction l with
  | nil => exact absurd rfl hl
  | cons a l ih =>
    cases l with
    | nil => simp [List.intercalate]
    | cons b l =>
      have h := ih (by simp)
      simp only [List.intercalate, List.intersperse, List.flatten_cons, List.map_cons,
        List.append_assoc] at h ⊢
      rw [h]

theorem splitResponse_long (response : JSString) (h : maxLength < response.length) :
    splitResponse response =
      (let st := (splitSentences response).foldl splitStep { chunks := [], currentChunk := [] }
       if st.currentChunk ≠ [] then st.chunks ++ [trim st.currentChunk] else st.chunks) := by
  unfold splitResponse
  rw [if_neg (by omega)]

/-- Every chunk of a long text fits, or is a lone unit with its full stop. -/
theorem splitResponse_chunks_ok (response : JSString) (h : maxLength < response.length) :
    ∀ ch ∈ splitResponse response,
      ch.length ≤ maxLength ∨ ∃ u ∈ sentenceUnits response, ch = u ++ ['.'] := by
  have inv := splitInv_final response
  rw [splitResponse_long response h]
  intro ch hch
  simp only at hch
  split_ifs at hch with hne
  · simp only [List.mem_append, List.mem_singleton] at hch
    rcases hch with hch | hch
    · exact inv.chunk_ok ch hch
    · subst hch
      exact inv.trim_current_ok hne
  · exact inv.chunk_ok ch hch

/-- Joining the chunks of a long text with single spaces gives the units, each closed
by a full stop, joined with single spaces. -/
theorem splitResponse_joined (response : JSString) (h : maxLength < response.length) :
    List.intercalate [' '] (splitResponse response)
      = List.intercalate [' '] ((sentenceUnits response).map (fun u => u ++ ['.'])) := by
  have inv := splitInv_final response
  rw [splitResponse_long response h]
  simp only
  split_ifs with hne
  · have hus : sentenceUnits response ≠ [] := by
      intro hnil
      have e := inv.content
      rw [hnil] at e
      simp at e
      exact hne e.2
    refine List.append_cancel_right (?_ : _ ++ [' '] = _ ++ [' '])
    rw [intercalate_space_append _ (by simp), intercalate_space_append _ (by simpa using hus)]
    have e := inv.content
    rw [List.map_append, List.flatten_append]
    simp only [List.map_cons, List.map_nil, List.flatten_cons, List.flatten_nil,
      List.append_nil, List.map_map]
    rw [inv.trim_current hne, e]
    congr 1
    apply List.map_congr_left
    intro u _
    simp
  · have hcur : _ = [] := not_not.mp hne
    obtain ⟨h1, h2⟩ := inv.empty_start hcur
    rw [h1, h2]
    rfl

/-! ## Evaluation of `splitResponse` on concrete texts -/

theorem splitOnPunctRuns_replicate (c : Char) (hc : isSentencePunct c = false) (n : Nat)
    (inRun : Bool) : splitOnPunctRuns (List.replicate n c) inRun = [List.replicate n c] := by
  induction n generalizing inRun with
  | zero => rfl
  | succ n ih => simp [List.replicate_succ, splitOnPunctRuns, hc, ih]

theorem trim_replicate (c : Char) (hc : isWhiteSpace c = false) (n : Nat) :
    trim (List.replicate n c) = List.replicate n c := by
  unfold trim
  have h1 : (List.replicate n c).dropWhile isWhiteSpace = List.replicate n c := by
    cases n with
    | zero => rfl
    | succ n => simp [List.replicate_succ, hc]
  rw [h1, List.rdropWhile_eq_self_iff]
  intro hl
  simp [hc]

theorem splitSentences_exclaimThen (n : Nat) :
    splitSentences (exclaimThen n) = [['H', 'i'], List.replicate n 'b'] := by
  have hb : isSentencePunct 'b' = false := by decide
  have h1 : isSentencePunct 'H' = false := by decide
  have h2 : isSentencePunct 'i' = false := by decide
  have h3 : isSentencePunct '!' = true := by decide
  simp [splitSentences, exclaimThen, splitOnPunctRuns, splitOnPunctRuns_replicate _ hb, h1, h2, h3]

theorem sentenceUnits_exclaimThen (n : Nat) (hn : 0 < n) :
    sentenceUnits (exclaimThen n) = [['H', 'i'], List.replicate n 'b'] := by
  have hb : isWhiteSpace 'b' = false := by decide
  have hH : trim ['H', 'i'] = ['H', 'i'] := by decide
  have hne : List.replicate n 'b' ≠ [] := by
    intro h
    have := congrArg List.length h
    simp at this
    omega
  simp [sentenceUnits, splitSentences_exclaimThen, hH, trim_replicate _ hb, hne]

theorem splitResponse_exclaimThen (n : Nat) (hn : 1997 < n) :
    splitResponse (exclaimThen n) = [['H', 'i', '.'], List.replicate n 'b' ++ ['.']] := by
  have hlen : maxLength < (exclaimThen n).length := by
    simp [exclaimThen, maxLength]; omega
  have hb : isWhiteSpace 'b' = false := by decide
  have hH : trim ['H', 'i'] = ['H', 'i'] := by decide
  have hT : trim ['H', 'i', '.', ' '] = ['H', 'i', '.'] := by decide
  have hne : List.replicate n 'b' ≠ [] := by
    intro h
    have := congrArg List.length h
    simp at this
    omega
  have hT2 : trim (List.replicate n 'b' ++ ['.', ' ']) = List.replicate n 'b' ++ ['.'] := by
    obtain ⟨m, rfl⟩ : ∃ m, n = m + 1 := ⟨n - 1, by omega⟩
    rw [List.replicate_succ]
    exact trim_of_terminated 'b' _ ('b' :: List.replicate m 'b') hb rfl
  have hgt : maxLength < n + 2 + 1 + 1 + 1 + 1 := by simp [maxLength]; omega
  rw [splitResponse_long _ hlen, splitSentences_exclaimThen]
  simp [splitStep, hH, hT, hT2, trim_replicate _ hb, hne, hgt]

theorem exclaimThen_length (n : Nat) : (exclaimThen n).length = n + 3 := by
  simp [exclaimThen]

theorem exclaimText_length : exclaimText.length = 2002 :=
  exclaimThen_length 1999

theorem no_exclamation_after_split (n : Nat) :
    '!' ∉ List.intercalate [' '] [['H', 'i', '.'], List.replicate n 'b' ++ ['.']] := by
  have hb : '!' ∉ List.replicate n 'b' := by
    intro h
    exact absurd (List.eq_of_mem_replicate h) (by decide)
  simp [List.intercalate, hb]

/-! ## Property reads -/

theorem lookup_some_mem {β : Type} (l : List (JSString × β)) (key : JSString) (v : β)
    (h : l.lookup key = some v) : (key, v) ∈ l := by
  obtain ⟨l1, l2, rfl, _⟩ := List.lookup_eq_some_iff.mp h
  simp

theorem inherited_is_builtin (key : JSString) (v : JSValue)
    (h : objectPrototypeMembers.lookup key = some v) : isBuiltin v = true := by
  have hall : objectPrototypeMembers.all (fun kv => isBuiltin kv.2) = true := rfl
  exact List.all_eq_true.mp hall (key, v) (lookup_some_mem _ _ _ h)

theorem builtin_truthy (v : JSValue) (h : isBuiltin v = true) : v.truthy = true := by
  cases v <;> first | rfl | simp [isBuiltin] at h

theorem builtin_log_ok (v : JSValue) (h : isBuiltin v = true) :
    ∃ t, (getLength v >>= fun len => toStringJS len) = Except.ok t := by
  cases v <;> first | exact ⟨_, rfl⟩ | simp [isBuiltin] at h

theorem builtin_toString_ok (v : JSValue) (h : isBuiltin v = true) :
    ∃ t, toStringJS v = Except.ok t := by
  cases v <;> first | exact ⟨_, rfl⟩ | simp [isBuiltin] at h

/-- A property read on a plain object that finds neither an own nor an inherited
property yields `undefined`. -/
theorem getProperty_absent (obj : JSObject) (key : JSString) (hown : obj.lookup key = none)
    (hinh : objectPrototypeMembers.lookup key = none) : getProperty obj key = .undefined := by
  simp [getProperty, hown, hinh]

theorem getProperty_own (obj : JSObject) (key : JSString) (v : JSValue)
    (hown : obj.lookup key = some v) : getProperty obj key = v := by
  simp [getProperty, hown]

/-- A property read on a plain object without the own property is never an array. -/
theorem getProperty_inherited_not_array (obj : JSObject) (key : JSString)
    (hown : obj.lookup key = none) (items : List JSValue) :
    getProperty obj key ≠ .array items := by
  unfold getProperty
  rw [hown]
  cases hinh : objectPrototypeMembers.lookup key with
  | none => simp
  | some v =>
    have hb := inherited_is_builtin key v hinh
    intro heq
    simp only at heq
    rw [heq] at hb
    simp [isBuiltin] at hb

/-! ## `getResponse` -/

theorem getResponse_no_bundle (key : JSValue) : getResponse none key = .ok (.string []) := by
  cases key <;> try rfl
  case string k =>
    by_cases hk : k = []
    · simp [getResponse, hk]
    · simp [getResponse, hk, lookupResponse, jsOr, JSValue.truthy, getLength, toStringJS]
      rfl

theorem getResponse_empty_key (bundle : Option Bundle) :
    getResponse bundle (.string []) = .ok (.string []) := by
  simp [getResponse]

theorem getResponse_non_string (bundle : Option Bundle) (key : JSValue)
    (h : ∀ s, key ≠ .string s) : getResponse bundle key = .ok (.string []) := by
  cases key <;> first | rfl | exact absurd rfl (h _)

theorem getResponse_absent (bundle : Option Bundle) (key : JSString)
    (h : lookupResponse bundle key = .undefined) :
    getResponse bundle (.string key) = .ok (.string []) := by
  by_cases hk : key = []
  · simp [getResponse, hk]
  · simp [getResponse, hk, h, jsOr, JSValue.truthy, getLength, toStringJS]
    rfl

theorem getResponse_text (bundle : Option Bundle) (key text : JSString) (hk : key ≠ [])
    (h : lookupResponse bundle key = .string text) :
    getResponse bundle (.string key) = .ok (.string text) := by
  by_cases ht : text = []
  · subst ht
    simp [getResponse, hk, h, jsOr, JSValue.truthy, getLength, toStringJS]
    rfl
  · have htr : (JSValue.string text).truthy = true := by
      cases text with
      | nil => exact absurd rfl ht
      | cons c cs => rfl
    simp [getResponse, hk, h, jsOr, htr, getLength, toStringJS]
    rfl

/-! ## `getCommandResponse` -/

theorem itemTexts_strings (texts : List JSString) :
    itemTexts (texts.map JSValue.string) = .ok texts := by
  induction texts with
  | nil => rfl
  | cons t ts ih =>
    simp only [List.map_cons, itemTexts, toStringJS, ih]
    rfl

theorem filter_truthy_strings (texts : List JSString) :
    (texts.map JSValue.string).filter JSValue.truthy
      = (texts.filter (fun t => t ≠ [])).map JSValue.string := by
  induction texts with
  | nil => rfl
  | cons t ts ih =>
    cases t with
    | nil => simpa [List.filter, JSValue.truthy] using ih
    | cons c cs => simp [List.filter, JSValue.truthy, ih]

theorem getResponses_resolved (bundle : Option Bundle) (keys : List JSString)
    (h : ∀ k ∈ keys, (∃ s, lookupResponse bundle k = .string s)
        ∨ lookupResponse bundle k = .undefined) :
    getResponses bundle (keys.map JSValue.string)
      = .ok ((keys.map (resolvedText bundle)).map JSValue.string) := by
  induction keys with
  | nil => rfl
  | cons k ks ih =>
    have hk := h k (by simp)
    have hks := ih (fun k' hk' => h k' (by simp [hk']))
    have hone : getResponse bundle (.string k) = .ok (.string (resolvedText bundle k)) := by
      unfold resolvedText
      by_cases hnil : k = []
      · simp [hnil, getResponse]
      · rcases hk with ⟨s, hs⟩ | hu
        · simp [hnil, hs, getResponse_text bundle k s hnil hs]
        · simp [hnil, hu, getResponse_absent bundle k hu]
    simp only [List.map_cons, getResponses, hone, hks]
    rfl

/-- For a command mapped to a list of string keys each of which resolves to a text or
to nothing, the result is the non-empty texts in key order joined by a blank line. -/
theorem getCommandResponse_resolved (bundle : Option Bundle) (command : JSString)
    (keys : List JSString)
    (hcmd : getProperty (getCommandsMap bundle) command = .array (keys.map JSValue.string))
    (h : ∀ k ∈ keys, (∃ s, lookupResponse bundle k = .string s)
        ∨ lookupResponse bundle k = .undefined) :
    getCommandResponse bundle command
      = .ok (List.intercalate ['\n', '\n']
          ((keys.map (resolvedText bundle)).filter (fun t => t ≠ []))) := by
  unfold getCommandResponse
  rw [hcmd]
  simp only [getResponses_resolved bundle keys h]
  show joinItems _ _ = _
  rw [filter_truthy_strings]
  unfold joinItems
  rw [itemTexts_strings]
  rfl

/-- A command that is not a key of `commands_map` gets the empty string. -/
theorem getCommandResponse_unknown (bundle : Option Bundle) (command : JSString)
    (h : (getCommandsMap bundle).lookup command = none) :
    getCommandResponse bundle command = .ok [] := by
  unfold getCommandResponse
  have hna := getProperty_inherited_not_array (getCommandsMap bundle) command h
  cases hp : getProperty (getCommandsMap bundle) command <;> first | rfl | exact absurd hp (hna _)

/-! ## The placeholder scan of `linkify` -/

theorem scanPlaceholders_cons_skip (c : Char) (t : JSString) (n : Nat) :
    scanPlaceholders (c :: t) (n + 1) = scanPlaceholders t n := rfl

theorem scanPlaceholders_cons_match (c : Char) (t key : JSString)
    (h : matchPlaceholder (c :: t) = some key) :
    scanPlaceholders (c :: t) 0
      = Segment.placeholder key :: scanPlaceholders t (key.length + 7) := by
  simp only [scanPlaceholders, h]

theorem scanPlaceholders_cons_literal (c : Char) (t : JSString)
    (h : matchPlaceholder (c :: t) = none) :
    scanPlaceholders (c :: t) 0 = Segment.literal c :: scanPlaceholders t 0 := by
  simp only [scanPlaceholders, h]

theorem scanPlaceholders_skip (xs t : JSString) :
    scanPlaceholders (xs ++ t) xs.length = scanPlaceholders t 0 := by
  induction xs with
  | nil => rfl
  | cons x xs ih =>
    show scanPlaceholders (x :: (xs ++ t)) (xs.length + 1) = _
    rw [scanPlaceholders_cons_skip, ih]

theorem matchPlaceholder_not_brace (c : Char) (t : JSString) (hc : c ≠ '{') :
    matchPlaceholder (c :: t) = none := by
  unfold matchPlaceholder
  split
  · next heq => cases heq; exact absurd rfl hc
  · rfl

theorem isLinkKeyChar_close : isLinkKeyChar '}' = false := by decide

theorem matchPlaceholder_text (key t : JSString) (hne : key ≠ [])
    (hkey : ∀ c ∈ key, isLinkKeyChar c = true) :
    matchPlaceholder (placeholderText key ++ t) = some key := by
  have h1 : List.takeWhile isLinkKeyChar (key ++ '}' :: t) = key := by
    rw [List.takeWhile_append_of_pos (fun a ha => hkey a ha)]
    simp [isLinkKeyChar_close]
  have h2 : List.dropWhile isLinkKeyChar (key ++ '}' :: t) = '}' :: t := by
    rw [List.dropWhile_append_of_pos (fun a ha => hkey a ha)]
    simp [isLinkKeyChar_close]
  cases key with
  | nil => exact absurd rfl hne
  | cons c cs =>
    simp only [placeholderText, List.cons_append, List.nil_append, List.append_assoc,
      matchPlaceholder]
    simp only [List.cons_append] at h1 h2
    rw [h1, h2]
    rfl

theorem scanPlaceholders_plain (s t : JSString) (hs : '{' ∉ s) :
    scanPlaceholders (s ++ t) 0 = s.map Segment.literal ++ scanPlaceholders t 0 := by
  induction s with
  | nil => rfl
  | cons c s ih =>
    have hc : c ≠ '{' := fun h => hs (by simp [h])
    have hs' : '{' ∉ s := fun h => hs (by simp [h])
    show scanPlaceholders (c :: (s ++ t)) 0 = _
    rw [scanPlaceholders_cons_literal c _ (matchPlaceholder_not_brace c _ hc), ih hs']
    rfl

theorem scanPlaceholders_placeholder (key t : JSString) (hne : key ≠ [])
    (hkey : ∀ c ∈ key, isLinkKeyChar c = true) :
    scanPlaceholders (placeholderText key ++ t) 0
      = Segment.placeholder key :: scanPlaceholders t 0 := by
  have hm := matchPlaceholder_text key t hne hkey
  have hskip := scanPlaceholders_skip (['l', 'i', 'n', 'k', 's', '.'] ++ key ++ ['}']) t
  have hlen : (['l', 'i', 'n', 'k', 's', '.'] ++ key ++ ['}']).length = key.length + 7 := by
    simp
  rw [hlen] at hskip
  have hshape : placeholderText key ++ t
      = '{' :: ((['l', 'i', 'n', 'k', 's', '.'] ++ key ++ ['}']) ++ t) := by
    simp [placeholderText]
  rw [hshape] at hm ⊢
  rw [scanPlaceholders_cons_match _ _ key hm, hskip]

theorem expandSegments_literals (links : Option JSObject) (s : JSString) (rest : List Segment)
    (r : JSString) (h : expandSegments links rest = .ok r) :
    expandSegments links (s.map Segment.literal ++ rest) = .ok (s ++ r) := by
  induction s with
  | nil => simpa using h
  | cons c s ih =>
    show expandSegments links (Segment.literal c :: (s.map Segment.literal ++ rest)) = _
    simp only [expandSegments, ih]
    rfl

/-! ## `linkify` on texts made of plain stretches and placeholders -/

theorem linkReplacement_expected (links : JSObject) (key : JSString)
    (h : (∃ s, links.lookup key = some (.string s))
        ∨ (links.lookup key = none ∧ objectPrototypeMembers.lookup key = none)) :
    toStringJS (linkReplacement (some links) key)
      = .ok (expectedPiece links (.placeholder key)) := by
  rcases h with ⟨s, hs⟩ | ⟨hown, hinh⟩
  · cases s with
    | nil =>
      simp [linkReplacement, getProperty_own links key _ hs, jsOr, JSValue.truthy,
        expectedPiece, hs, toStringJS]
    | cons c cs =>
      simp [linkReplacement, getProperty_own links key _ hs, jsOr, JSValue.truthy,
        expectedPiece, hs, toStringJS]
  · simp [linkReplacement, getProperty_absent links key hown hinh, jsOr, JSValue.truthy,
      expectedPiece, hown, toStringJS]

theorem linkify_pieces_aux (links : JSObject) (pieces : List Piece)
    (hwf : ∀ p ∈ pieces, p.WellFormed)
    (hkeys : ∀ key, Piece.placeholder key ∈ pieces →
      (∃ s, links.lookup key = some (.string s))
        ∨ (links.lookup key = none ∧ objectPrototypeMembers.lookup key = none)) :
    expandSegments (some links) (scanPlaceholders (renderPieces pieces) 0)
      = .ok (expectedText links pieces) := by
  induction pieces with
  | nil => rfl
  | cons p ps ih =>
    have ih' := ih (fun q hq => hwf q (by simp [hq]))
      (fun key hk => hkeys key (by simp [hk]))
    have hp := hwf p (by simp)
    cases p with
    | plain s =>
      have hs : '{' ∉ s := hp
      show expandSegments (some links) (scanPlaceholders (s ++ renderPieces ps) 0) = _
      rw [scanPlaceholders_plain s _ hs, expandSegments_literals _ s _ _ ih']
      rfl
    | placeholder key =>
      obtain ⟨hne, hkey⟩ : key ≠ [] ∧ ∀ c ∈ key, isLinkKeyChar c = true := hp
      show expandSegments (some links)
        (scanPlaceholders (placeholderText key ++ renderPieces ps) 0) = _
      rw [scanPlaceholders_placeholder key _ hne hkey]
      simp only [expandSegments, linkReplacement_expected links key (hkeys key (by simp)), ih']
      rfl

/-- On a text made of brace-free stretches and placeholders with keys in `[a-z_]+`,
`linkify` replaces exactly the placeholders whose key has a non-empty string in `links`
and leaves the others as written. -/
theorem linkify_pieces (links : JSObject) (pieces : List Piece)
    (hwf : ∀ p ∈ pieces, p.WellFormed)
    (hkeys : ∀ key, Piece.placeholder key ∈ pieces →
      (∃ s, links.lookup key = some (.string s))
        ∨ (links.lookup key = none ∧ objectPrototypeMembers.lookup key = none)) :
    linkify (some links) (renderPieces pieces) = .ok (expectedText links pieces) :=
  linkify_pieces_aux links pieces hwf hkeys

/-! ## `interpolateLinks` -/

theorem linkReplacement_ok (links : Option JSObject)
    (hstr : ∀ l, links = some l → ∀ kv ∈ l, ∃ s, kv.2 = JSValue.string s) (key : JSString) :
    ∃ t, toStringJS (linkReplacement links key) = .ok t := by
  cases links with
  | none => exact ⟨_, rfl⟩
  | some l =>
    show ∃ t, toStringJS (jsOr (getProperty l key) (.string (placeholderText key))) = .ok t
    cases hown : l.lookup key with
    | some v =>
      obtain ⟨s, hs⟩ := hstr l rfl (key, v) (lookup_some_mem l key v hown)
      simp only at hs
      subst hs
      rw [getProperty_own l key _ hown]
      cases s with
      | nil => exact ⟨_, rfl⟩
      | cons c cs => exact ⟨_, rfl⟩
    | none =>
      cases hinh : objectPrototypeMembers.lookup key with
      | none =>
        rw [getProperty_absent l key hown hinh]
        exact ⟨_, rfl⟩
      | some v =>
        have hb := inherited_is_builtin key v hinh
        have hp : getProperty l key = v := by simp [getProperty, hown, hinh]
        rw [hp]
        simp only [jsOr, builtin_truthy v hb, if_true]
        exact builtin_toString_ok v hb

theorem expandSegments_ok (links : Option JSObject)
    (hstr : ∀ l, links = some l → ∀ kv ∈ l, ∃ s, kv.2 = JSValue.string s)
    (segs : List Segment) : ∃ t, expandSegments links segs = .ok t := by
  induction segs with
  | nil => exact ⟨_, rfl⟩
  | cons seg segs ih =>
    obtain ⟨r, hr⟩ := ih
    cases seg with
    | literal c => exact ⟨c :: r, by simp only [expandSegments, hr]; rfl⟩
    | placeholder key =>
      obtain ⟨v, hv⟩ := linkReplacement_ok links hstr key
      exact ⟨v ++ r, by simp only [expandSegments, hr, hv]; rfl⟩

/-- With string-valued links, `linkify` never throws. -/
theorem linkify_ok (links : Option JSObject)
    (hstr : ∀ l, links = some l → ∀ kv ∈ l, ∃ s, kv.2 = JSValue.string s)
    (text : JSString) : ∃ t, linkify links text = .ok t :=
  expandSegments_ok links hstr _

theorem interpolateEntries_ok (links : Option JSObject)
    (hstr : ∀ l, links = some l → ∀ kv ∈ l, ∃ s, kv.2 = JSValue.string s)
    (responses : JSObject) :
    (interpolateEntries links responses).2 = none ∧
    List.Forall₂ (Interpolated links) responses (interpolateEntries links responses).1 := by
  induction responses with
  | nil => exact ⟨rfl, List.Forall₂.nil⟩
  | cons entry rest ih =>
    obtain ⟨name, value⟩ := entry
    cases value with
    | string text =>
      obtain ⟨t, ht⟩ := linkify_ok links hstr text
      simp only [interpolateEntries, ht]
      refine ⟨ih.1, List.Forall₂.cons ⟨rfl, ?_, ?_⟩ ih.2⟩
      · intro text' htext
        cases htext
        exact ⟨t, ht, rfl⟩
      · intro hns
        exact absurd rfl (hns text)
    | _ =>
      simp only [interpolateEntries]
      refine ⟨ih.1, List.Forall₂.cons ⟨rfl, ?_, ?_⟩ ih.2⟩
      · intro text' htext
        cases htext
      · intro _
        rfl

theorem interpolateLinks_entries (b : Bundle) (responses : JSObject)
    (hr : b.responses = some responses)
    (hstr : ∀ l, b.links = some l → ∀ kv ∈ l, ∃ s, kv.2 = JSValue.string s) :
    interpolateLinks (some b)
        = (some { b with responses := some (interpolateEntries b.links responses).1 }, none) ∧
    List.Forall₂ (Interpolated b.links) responses (interpolateEntries b.links responses).1 := by
  have h := interpolateEntries_ok b.links hstr responses
  refine ⟨?_, h.2⟩
  simp only [interpolateLinks, hr]
  rw [← h.1]

/-! ## Claims about `splitResponse` -/

/-- C1: for every text longer than 2000 code units, each chunk returned by
`splitResponse` has length at most 2000 or consists of exactly one sentence unit
followed by `.`; hence, when every sentence unit of the text is shorter than 2000,
all chunks have length at most 2000. -/
theorem splitResponse_chunk_bound (text : JSString) (hlong : 2000 < text.length) :
    (∀ chunk ∈ splitResponse text,
        chunk.length ≤ 2000 ∨ ∃ u ∈ sentenceUnits text, chunk = u ++ ['.']) ∧
    ((∀ u ∈ sentenceUnits text, u.length < 2000) →
        ∀ chunk ∈ splitResponse text, chunk.length ≤ 2000) := by
  have key := splitResponse_chunks_ok text hlong
  refine ⟨key, ?_⟩
  intro hunits chunk hchunk
  rcases key chunk hchunk with h | ⟨u, hu, h⟩
  · exact h
  · have := hunits u hu
    rw [h, List.length_append]
    simp only [List.length_singleton]
    omega

/-- C1, at the 2002 code unit text `exclaimText`. -/
theorem splitResponse_chunk_bound_witness :
    2000 < exclaimText.length ∧
    ((∀ chunk ∈ splitResponse exclaimText,
        chunk.length ≤ 2000 ∨ ∃ u ∈ sentenceUnits exclaimText, chunk = u ++ ['.']) ∧
     ((∀ u ∈ sentenceUnits exclaimText, u.length < 2000) →
        ∀ chunk ∈ splitResponse exclaimText, chunk.length ≤ 2000)) :=
  ⟨by rw [exclaimText_length]; decide,
   splitResponse_chunk_bound exclaimText (by rw [exclaimText_length]; decide)⟩

/-- C2: the code does not keep the content of a long text. The text `exclaimText` is
longer than 2000, both its sentence units are shorter than 2000, and its first sentence
ends in `!`; the chunks are `Hi.` and the 1999 letters followed by `.`, so the joined
chunks contain no `!` at all: the exclamation mark of the input has been replaced by a
full stop (and a full stop was added after the unterminated last sentence), where the
method is documented as one that splits the response into chunks and returns a text of
at most 2000 code units as it is. -/
theorem splitResponse_rewrites_punctuation :
    2000 < exclaimText.length ∧
    (∀ u ∈ sentenceUnits exclaimText, u.length < 2000) ∧
    exclaimText = ['H', 'i', '!'] ++ List.replicate 1999 'b' ∧
    splitResponse exclaimText = [['H', 'i', '.'], List.replicate 1999 'b' ++ ['.']] ∧
    '!' ∉ List.intercalate [' '] (splitResponse exclaimText) := by
  have hsplit : splitResponse exclaimText
      = [['H', 'i', '.'], List.replicate 1999 'b' ++ ['.']] :=
    splitResponse_exclaimThen 1999 (by decide)
  refine ⟨by rw [exclaimText_length]; decide, ?_, rfl, hsplit, ?_⟩
  · intro u hu
    rw [exclaimText, sentenceUnits_exclaimThen 1999 (by decide)] at hu
    simp only [List.mem_cons, List.mem_singleton, List.not_mem_nil, or_false] at hu
    rcases hu with rfl | rfl
    · decide
    · rw [List.length_replicate]; decide
  · rw [hsplit]
    exact no_exclamation_after_split 1999

/-- What the long path of `splitResponse` returns: for every text longer than 2000 code
units, joining the chunks with single spaces gives the sentence units of the text, in
their order, each followed by a single `.` (whatever punctuation ended it in the
input, and also where the input had a `.` inside a URL or a decimal number), joined with
single spaces. -/
theorem splitResponse_join_units (text : JSString) (hlong : 2000 < text.length) :
    List.intercalate [' '] (splitResponse text)
      = List.intercalate [' '] ((sentenceUnits text).map (fun u => u ++ ['.'])) :=
  splitResponse_joined text hlong

/-- The joined chunks of the 2002 code unit text `exclaimText`. -/
theorem splitResponse_join_units_exclaimText :
    2000 < exclaimText.length ∧
    List.intercalate [' '] (splitResponse exclaimText)
      = List.intercalate [' '] ((sentenceUnits exclaimText).map (fun u => u ++ ['.'])) :=
  ⟨by rw [exclaimText_length]; decide,
   splitResponse_join_units exclaimText (by rw [exclaimText_length]; decide)⟩

/-- C3 fails as stated: the two code unit text `" a"` is returned unchanged, with its
leading space, not trimmed. -/
theorem splitResponse_short_not_trimmed :
    ([' ', 'a'] : JSString).length ≤ 2000 ∧
    trim [' ', 'a'] = ['a'] ∧
    splitResponse [' ', 'a'] = [[' ', 'a']] ∧
    splitResponse [' ', 'a'] ≠ [trim [' ', 'a']] := by
  decide

/-- C3 (amended): for every text of length at most 2000, `splitResponse` returns
exactly one chunk, and that chunk is the input itself, unchanged. -/
theorem splitResponse_short (text : JSString) (hshort : text.length ≤ 2000) :
    splitResponse text = [text] := by
  unfold splitResponse
  rw [if_pos (show text.length ≤ maxLength from hshort)]

/-- C3 (amended), at the text `" hi. "`. -/
theorem splitResponse_short_witness :
    ([' ', 'h', 'i', '.', ' '] : JSString).length ≤ 2000 ∧
    splitResponse [' ', 'h', 'i', '.', ' '] = [[' ', 'h', 'i', '.', ' ']] :=
  ⟨by decide, splitResponse_short [' ', 'h', 'i', '.', ' '] (by decide)⟩

/-- C4 fails as stated: for the empty string `splitResponse` does not return an empty
sequence. -/
theorem splitResponse_empty_not_nil : splitResponse [] ≠ [] := by
  decide

/-- C4 (amended): for the empty string `splitResponse` returns exactly one chunk, the
empty string. -/
theorem splitResponse_empty : splitResponse [] = [[]] := by
  decide

/-! ## The placeholder pattern against its description -/

theorem isLinkKeyChar_iff (c : Char) : isLinkKeyChar c = true ↔ c ∈ keyAlphabet := by
  constructor
  · intro h
    have hc : c = Char.ofNat c.toNat := (Char.ofNat_toNat c).symm
    unfold isLinkKeyChar at h
    simp only [Bool.or_eq_true, Bool.and_eq_true, decide_eq_true_eq, beq_iff_eq] at h
    rcases h with ⟨h1, h2⟩ | h
    · have h1' : 97 ≤ c.toNat := h1
      have h2' : c.toNat ≤ 122 := h2
      generalize c.toNat = n at hc h1' h2'
      subst hc
      interval_cases n <;> decide
    · subst h
      decide
  · intro h
    have hall : ∀ d ∈ keyAlphabet, isLinkKeyChar d = true := by decide
    exact hall c h

theorem validKey_iff (key : JSString) :
    ValidKey key ↔ key ≠ [] ∧ ∀ c ∈ key, isLinkKeyChar c = true := by
  unfold ValidKey
  constructor
  · rintro ⟨h1, h2⟩
    exact ⟨h1, fun c hc => (isLinkKeyChar_iff c).mpr (h2 c hc)⟩
  · rintro ⟨h1, h2⟩
    exact ⟨h1, fun c hc => (isLinkKeyChar_iff c).mp (h2 c hc)⟩

/-- A match of the pattern at the start of a text: the text begins with the placeholder
of the captured key, and the key is accepted. -/
theorem matchPlaceholder_some (s key : JSString) (h : matchPlaceholder s = some key) :
    ValidKey key ∧ ∃ rest, s = placeholderText key ++ rest := by
  unfold matchPlaceholder at h
  split at h
  · next rest =>
    split at h
    · next c cs tail htake hdrop =>
      cases h
      have hsplit := List.takeWhile_append_dropWhile isLinkKeyChar rest
      rw [htake, hdrop] at hsplit
      refine ⟨(validKey_iff _).mpr ⟨by simp, ?_⟩, tail, ?_⟩
      · intro d hd
        rw [← htake] at hd
        exact List.mem_takeWhile_imp hd
      · rw [← hsplit]
        simp [placeholderText]
    · cases h
  · cases h

theorem matchPlaceholder_none (s : JSString) (h : matchPlaceholder s = none) :
    ¬ StartsWithPlaceholder s := by
  rintro ⟨key, rest, hvalid, rfl⟩
  obtain ⟨hne, hkey⟩ := (validKey_iff key).mp hvalid
  rw [matchPlaceholder_text key rest hne hkey] at h
  cases h


theorem resolvedLink_eq_expected (links : JSObject) (key : JSString) :
    expectedPiece links (.placeholder key) = resolvedLink links key := rfl

theorem noInheritedKey_suffix (links : JSObject) (text rest : JSString)
    (h : NoInheritedKey links text) (hs : rest <:+ text) : NoInheritedKey links rest :=
  fun key hown hinh hin => h key hown hinh (hin.trans hs.isInfix)

/-- With string-valued links, `linkify` returns a text that `Expands` relates to its
argument, on every text without a placeholder naming an inherited member. -/
theorem linkify_expands (links : JSObject)
    (hstr : ∀ kv ∈ links, ∃ s, kv.2 = JSValue.string s) :
    ∀ (n : Nat) (text : JSString), text.length ≤ n → NoInheritedKey links text →
      ∃ out, linkify (some links) text = .ok out ∧ Expands links text out := by
  intro n
  induction n with
  | zero =>
    intro text hlen _
    have : text = [] := List.length_eq_zero.mp (Nat.le_zero.mp hlen)
    subst this
    exact ⟨[], rfl, Expands.done⟩
  | succ n ih =>
    intro text hlen hno
    cases text with
    | nil => exact ⟨[], rfl, Expands.done⟩
    | cons c t =>
      cases hm : matchPlaceholder (c :: t) with
      | none =>
        have hsuf : t <:+ c :: t := List.suffix_cons c t
        obtain ⟨out, hout, hexp⟩ := ih t (by simpa using hlen)
          (noInheritedKey_suffix links _ _ hno hsuf)
        refine ⟨c :: out, ?_, Expands.copy c t out (matchPlaceholder_none _ hm) hexp⟩
        unfold linkify at hout ⊢
        rw [scanPlaceholders_cons_literal c t hm]
        simp only [expandSegments, hout]
        rfl
      | some key =>
        obtain ⟨hvalid, rest, hrest⟩ := matchPlaceholder_some _ key hm
        obtain ⟨hne, hkey⟩ := (validKey_iff key).mp hvalid
        have hsuf : rest <:+ c :: t := ⟨placeholderText key, hrest.symm⟩
        have hlen' : rest.length ≤ n := by
          have h1 := congrArg List.length hrest
          simp [placeholderText] at h1
          simp at hlen
          omega
        obtain ⟨out, hout, hexp⟩ := ih rest hlen' (noInheritedKey_suffix links _ _ hno hsuf)
        have hrepl : toStringJS (linkReplacement (some links) key)
            = .ok (resolvedLink links key) := by
          rw [← resolvedLink_eq_expected]
          apply linkReplacement_expected
          cases hown : links.lookup key with
          | some v =>
            obtain ⟨s, hs⟩ := hstr (key, v) (lookup_some_mem links key v hown)
            simp only at hs
            exact Or.inl ⟨s, by rw [hs]⟩
          | none =>
            refine Or.inr ⟨rfl, ?_⟩
            by_contra hinh
            exact hno key hown hinh ⟨[], rest, by simpa using hrest.symm⟩
        refine ⟨resolvedLink links key ++ out, ?_, ?_⟩
        · unfold linkify at hout ⊢
          rw [hrest, scanPlaceholders_placeholder key rest hne hkey]
          simp only [expandSegments, hrepl, hout]
          rfl
        · rw [hrest]
          exact Expands.placeholder key rest out hvalid hexp

theorem not_mem_close_of_valid (key : JSString) (h : ValidKey key) : '}' ∉ key := by
  intro hmem
  have := h.2 _ hmem
  revert this
  decide

theorem takeWhile_until_close (key rest : JSString) (h : '}' ∉ key) :
    (key ++ '}' :: rest).takeWhile (fun c => c != '}') = key := by
  induction key with
  | nil => simp
  | cons c cs ih =>
    have hc : c ≠ '}' := fun e => h (by simp [e])
    have hcs : '}' ∉ cs := fun e => h (by simp [e])
    simp [hc, ih hcs]

/-- A placeholder text determines its key, when neither key contains a closing brace. -/
theorem placeholderText_inj (key key' rest rest' : JSString) (h : '}' ∉ key)
    (h' : '}' ∉ key') (e : placeholderText key ++ rest = placeholderText key' ++ rest') :
    key = key' ∧ rest = rest' := by
  have e2 : key ++ '}' :: rest = key' ++ '}' :: rest' := by
    simpa [placeholderText] using e
  have hk : key = key' := by
    have := congrArg (List.takeWhile (fun c => c != '}')) e2
    rwa [takeWhile_until_close key rest h, takeWhile_until_close key' rest' h'] at this
  subst hk
  exact ⟨rfl, by simpa using e2⟩

/-- The relation `Expands` determines the resulting text. -/
theorem expands_unique (links : JSObject) (text out : JSString)
    (h : Expands links text out) : ∀ out', Expands links text out' → out' = out := by
  induction h with
  | done =>
    intro out' h'
    cases h' with
    | done => rfl
  | placeholder key rest out hv _ ih =>
    intro out' h'
    generalize hs : placeholderText key ++ rest = s at h'
    cases h' with
    | done => simp [placeholderText] at hs
    | placeholder key' rest' out2 hv' hrest' =>
      obtain ⟨hk, hr⟩ := placeholderText_inj key key' rest rest'
        (not_mem_close_of_valid key hv) (not_mem_close_of_valid key' hv') hs
      subst hk hr
      rw [ih out2 hrest']
    | copy c r out2 hnot _ =>
      exact absurd ⟨key, rest, hv, hs.symm⟩ hnot
  | copy c rest out hnot _ ih =>
    intro out' h'
    generalize hs : c :: rest = s at h'
    cases h' with
    | done => cases hs
    | placeholder key' rest' out2 hv' _ =>
      exact absurd ⟨key', rest', hv', hs⟩ hnot
    | copy c' r out2 _ hrest' =>
      cases hs
      rw [ih out2 hrest']

/-- A text `{links.<key>}` whose key the pattern does not accept (and that holds no
brace of its own) is copied as written, whatever `links` holds. -/
theorem linkify_foreign_key (links : Option JSObject) (key rest r : JSString)
    (hopen : '{' ∉ key) (hclose : '}' ∉ key) (hinvalid : ¬ ValidKey key)
    (hrest : linkify links rest = .ok r) :
    linkify links (placeholderText key ++ rest) = .ok (placeholderText key ++ r) := by
  have hnone : matchPlaceholder (placeholderText key ++ rest) = none := by
    cases hm : matchPlaceholder (placeholderText key ++ rest) with
    | none => rfl
    | some key' =>
      obtain ⟨hv, rest', hr⟩ := matchPlaceholder_some _ key' hm
      obtain ⟨hk, _⟩ := placeholderText_inj key key' rest rest' hclose
        (not_mem_close_of_valid key' hv) hr
      subst hk
      exact absurd hv hinvalid
  have htail : '{' ∉ ['l', 'i', 'n', 'k', 's', '.'] ++ key ++ ['}'] := by
    intro h
    simp only [List.mem_append, List.mem_cons, List.mem_singleton, List.not_mem_nil,
      or_false] at h
    rcases h with (h | h) | h
    · revert h; decide
    · exact hopen h
    · revert h; decide
  have hshape : placeholderText key ++ rest
      = '{' :: ((['l', 'i', 'n', 'k', 's', '.'] ++ key ++ ['}']) ++ rest) := by
    simp [placeholderText]
  have hshape2 : placeholderText key ++ r
      = '{' :: ((['l', 'i', 'n', 'k', 's', '.'] ++ key ++ ['}']) ++ r) := by
    simp [placeholderText]
  unfold linkify at hrest ⊢
  rw [hshape] at hnone ⊢
  rw [scanPlaceholders_cons_literal _ _ hnone, scanPlaceholders_plain _ rest htail, hshape2]
  exact expandSegments_literals links ('{' :: (['l', 'i', 'n', 'k', 's', '.'] ++ key ++ ['}']))
    (scanPlaceholders rest 0) r hrest

/-! ## Claims about the knowledge base -/

/-- The specification's scenario: with `responses {a: "X"}` and
`commands_map {cmd: ["a", "missing"]}`, `getCommandResponse("cmd")` is `"X"`. -/
theorem getCommandResponse_scenario :
    getCommandResponse (some scenarioBundle) "cmd".toList = .ok "X".toList := rfl

/-- For every key that is neither an own key of `responses` nor the name of a member of
`Object.prototype`, `getResponse` returns the empty string. -/
theorem getResponse_unknown_key (b : Bundle) (responses : JSObject) (key : JSString)
    (hr : b.responses = some responses) (hown : responses.lookup key = none)
    (hinh : objectPrototypeMembers.lookup key = none) :
    getResponse (some b) (.string key) = .ok (.string []) := by
  apply getResponse_absent
  simp only [lookupResponse, hr]
  exact getProperty_absent responses key hown hinh

/-- C5: on the bundle `{responses: {a: "X"}, commands_map: {cmd: ["a", "constructor"]}}`
the key `constructor` is missing from `responses`, so the claim asks for `"X"`; the code
returns `"X"`, a blank line, and the source text of the built-in function `Object`,
which the read `responses["constructor"]` finds on `Object.prototype`. -/
theorem getCommandResponse_inherited_key :
    inheritedKeyBundle.responses = some [("a".toList, .string "X".toList)] ∧
    inheritedKeyBundle.commands_map
      = some [("cmd".toList, .array [.string "a".toList, .string "constructor".toList])] ∧
    getCommandResponse (some inheritedKeyBundle) "cmd".toList
      = .ok "X\n\nfunction Object() \x7b [native code] \x7d".toList :=
  ⟨rfl, rfl, rfl⟩

/-- C6: on the bundle whose `responses` is `{a: "X"}`, the key `constructor` is not a
key of `responses`, yet `getResponse("constructor")` returns the built-in function
`Object` inherited from `Object.prototype`, not the empty string. -/
theorem getResponse_inherited_key :
    inheritedKeyBundle.responses = some [("a".toList, .string "X".toList)] ∧
    List.lookup "constructor".toList [("a".toList, JSValue.string "X".toList)] = none ∧
    getResponse (some inheritedKeyBundle) (.string "constructor".toList)
      = .ok (.native "Object".toList 1) :=
  ⟨rfl, rfl, rfl⟩

/-- The placeholder `{links.constructor}` is replaced by the source text of the
built-in function `Object` although `links` has no such key. -/
theorem linkify_inherited_key :
    linkify (some []) "\x7blinks.constructor\x7d".toList
      = .ok "function Object() \x7b [native code] \x7d".toList := rfl

/-- The bundle `siteBundle` after `interpolateLinks`. -/
theorem interpolateLinks_siteBundle :
    interpolateLinks (some siteBundle)
      = (some { siteBundle with
          responses := some [("site".toList,
            .string "Visit https://f3.example or \x7blinks.docs\x7d.".toList),
            ("n".toList, .number 7)] }, none) := rfl

/-- C7 fails as stated: in `oddLinksBundle` the keys `Docs` and `blank` are keys of
`links`, with values `https://docs.example` and the empty string, but
`interpolateLinks` leaves both response texts, `See {links.Docs}` and
`[{links.blank}]`, exactly as written: the pattern only accepts keys made of lower-case
letters and underscores, and an empty link value is treated as missing. -/
theorem interpolateLinks_leaves_known_keys :
    oddLinksBundle.responses
      = some [("docs".toList, .string "See \x7blinks.Docs\x7d".toList),
          ("blank".toList, .string "[\x7blinks.blank\x7d]".toList)] ∧
    oddLinksBundle.links
      = some [("Docs".toList, .string "https://docs.example".toList),
          ("blank".toList, .string [])] ∧
    interpolateLinks (some oddLinksBundle) = (some oddLinksBundle, none) :=
  ⟨rfl, rfl, rfl⟩

/-- The same in terms of pieces: when `links` is an object whose values are strings,
`interpolateLinks` completes and every entry of `responses` keeps its key, a value that
is not a string is untouched, and a response text made of brace-free stretches and
placeholders `{links.<key>}` with `<key>` a non-empty run of lower-case letters and
underscores becomes the same text in which each placeholder whose key has a non-empty
value in `links` is replaced by that value and every other placeholder is left exactly
as written (keys that are absent from `links` being required not to name a member of
`Object.prototype`). -/
theorem interpolateLinks_pieces (b : Bundle) (responses links : JSObject)
    (hr : b.responses = some responses) (hl : b.links = some links)
    (hstr : ∀ kv ∈ links, ∃ s, kv.2 = JSValue.string s) :
    ∃ responses', interpolateLinks (some b)
        = (some { b with responses := some responses' }, none) ∧
      List.Forall₂ (fun old new =>
        new.1 = old.1 ∧
        ((∀ text, old.2 ≠ JSValue.string text) → new.2 = old.2) ∧
        ∀ pieces, old.2 = JSValue.string (renderPieces pieces) →
          (∀ p ∈ pieces, p.WellFormed) →
          (∀ key, Piece.placeholder key ∈ pieces → links.lookup key = none →
            objectPrototypeMembers.lookup key = none) →
          new.2 = JSValue.string (expectedText links pieces)) responses responses' := by
  have hstr' : ∀ l, b.links = some l → ∀ kv ∈ l, ∃ s, kv.2 = JSValue.string s := by
    intro l hl'
    rw [hl] at hl'
    cases hl'
    exact hstr
  obtain ⟨hrun, hrel⟩ := interpolateLinks_entries b responses hr hstr'
  refine ⟨_, hrun, hrel.imp ?_⟩
  rintro old new ⟨hkey, htext, hother⟩
  refine ⟨hkey, hother, ?_⟩
  intro pieces hold hwf hkeys
  obtain ⟨t, ht, hnew⟩ := htext _ hold
  rw [hl] at ht
  have hspec := linkify_pieces links pieces hwf (by
    intro key hk
    cases hown : links.lookup key with
    | none => exact Or.inr ⟨rfl, hkeys key hk hown⟩
    | some v =>
      obtain ⟨s, hs⟩ := hstr (key, v) (lookup_some_mem links key v hown)
      simp only at hs
      exact Or.inl ⟨s, by rw [hs]⟩)
  rw [hspec] at ht
  cases ht
  exact hnew

/-- C7 (amended): when `links` is an object whose values are strings,
`interpolateLinks` completes and every entry of `responses` keeps its key, a value that
is not a string is untouched, and every response text becomes the text that reading it
from left to right gives when each placeholder `{links.<key>}` with `<key>` a non-empty
run of lower-case letters `a` to `z` and underscores is replaced by the value of `<key>`
in `links` if that is a non-empty string and left exactly as written otherwise, and
every other code unit is copied (texts with a placeholder whose key is absent from
`links` but names a member of `Object.prototype` are left out).  In particular a
placeholder whose key holds any other character is never replaced, whatever `links`
holds. -/
theorem interpolateLinks_replaces (b : Bundle) (responses links : JSObject)
    (hr : b.responses = some responses) (hl : b.links = some links)
    (hstr : ∀ kv ∈ links, ∃ s, kv.2 = JSValue.string s) :
    (∃ responses', interpolateLinks (some b)
        = (some { b with responses := some responses' }, none) ∧
      List.Forall₂ (fun old new =>
        new.1 = old.1 ∧
        ((∀ text, old.2 ≠ JSValue.string text) → new.2 = old.2) ∧
        ∀ text, old.2 = JSValue.string text → NoInheritedKey links text →
          ∃ out, new.2 = JSValue.string out ∧ Expands links text out ∧
            ∀ out', Expands links text out' → out' = out) responses responses') ∧
    (∀ key rest r, '{' ∉ key → '}' ∉ key → ¬ ValidKey key →
      linkify b.links rest = .ok r →
      linkify b.links (placeholderText key ++ rest) = .ok (placeholderText key ++ r)) := by
  have hstr' : ∀ l, b.links = some l → ∀ kv ∈ l, ∃ s, kv.2 = JSValue.string s := by
    intro l hl'
    rw [hl] at hl'
    cases hl'
    exact hstr
  obtain ⟨hrun, hrel⟩ := interpolateLinks_entries b responses hr hstr'
  refine ⟨⟨_, hrun, hrel.imp ?_⟩, fun key rest r h1 h2 h3 h4 =>
    linkify_foreign_key b.links key rest r h1 h2 h3 h4⟩
  rintro old new ⟨hkey, htext, hother⟩
  refine ⟨hkey, hother, ?_⟩
  intro text hold hno
  obtain ⟨t, ht, hnew⟩ := htext _ hold
  rw [hl] at ht
  obtain ⟨out, hout, hexp⟩ := linkify_expands links hstr text.length text (le_refl _) hno
  rw [hout] at ht
  have e : out = t := Except.ok.inj ht
  rw [← e] at hnew
  exact ⟨out, hnew, hexp, expands_unique links text out hexp⟩

/-- C7 (amended), at `siteBundle`. -/
theorem interpolateLinks_replaces_witness :
    siteBundle.responses = some [("site".toList,
        .string "Visit \x7blinks.site\x7d or \x7blinks.docs\x7d.".toList),
      ("n".toList, .number 7)] ∧
    siteBundle.links = some [("site".toList, .string "https://f3.example".toList)] ∧
    (∀ kv ∈ [("site".toList, JSValue.string "https://f3.example".toList)],
      ∃ s, kv.2 = JSValue.string s) ∧
    ((∃ responses', interpolateLinks (some siteBundle)
        = (some { siteBundle with responses := some responses' }, none) ∧
      List.Forall₂ (fun old new =>
        new.1 = old.1 ∧
        ((∀ text, old.2 ≠ JSValue.string text) → new.2 = old.2) ∧
        ∀ text, old.2 = JSValue.string text →
          NoInheritedKey [("site".toList, JSValue.string "https://f3.example".toList)] text →
          ∃ out, new.2 = JSValue.string out ∧
            Expands [("site".toList, JSValue.string "https://f3.example".toList)] text out ∧
            ∀ out', Expands [("site".toList, JSValue.string "https://f3.example".toList)]
              text out' → out' = out)
        [("site".toList,
            JSValue.string "Visit \x7blinks.site\x7d or \x7blinks.docs\x7d.".toList),
          ("n".toList, JSValue.number 7)] responses') ∧
     (∀ key rest r, '{' ∉ key → '}' ∉ key → ¬ ValidKey key →
      linkify siteBundle.links rest = .ok r →
      linkify siteBundle.links (placeholderText key ++ rest)
        = .ok (placeholderText key ++ r))) :=
  ⟨rfl, rfl, by simp,
   interpolateLinks_replaces siteBundle _ _ rfl rfl (by simp)⟩

/-! ## The context rules -/

theorem contextInfo_eq_selected (R : JSString → JSString) (m : JSString) :
    contextInfo R m
      = (match selectedKey m with
         | some key => contextLabel ++ R key
         | none => []) := by
  unfold contextInfo selectedKey contextRules
  simp only [List.find?]
  generalize (includes m "zenthink".toList
      && (includes m "website".toList || includes m "site".toList)) = c1
  generalize (includes m "pump".toList
      && (includes m "website".toList || includes m "site".toList)) = c2
  generalize (includes m "zenthink".toList || includes m "zen think".toList) = c3
  generalize (includes m "parlay".toList || includes m "sports".toList) = c4
  generalize (includes m "pump".toList || includes m "pill".toList
      || includes m "arena".toList) = c5
  generalize (includes m "trading".toList || includes m "bot".toList) = c6
  generalize (includes m "status".toList || includes m "update".toList) = c7
  cases c1 <;> cases c2 <;> cases c3 <;> cases c4 <;> cases c5 <;> cases c6 <;> cases c7 <;> rfl



theorem selectedKey_eq_some_iff (m key : JSString) :
    selectedKey m = some key ↔
      ∃ before rule after, contextRules = before ++ rule :: after ∧
        rule.applies m = true ∧ (∀ r ∈ before, r.applies m = false) ∧ rule.key = key := by
  unfold selectedKey
  constructor
  · intro h
    cases hf : contextRules.find? (fun rule => rule.applies m) with
    | none => rw [hf] at h; cases h
    | some rule =>
      rw [hf] at h
      cases h
      obtain ⟨happ, before, after, hsplit, hbefore⟩ := List.find?_eq_some.mp hf
      exact ⟨before, rule, after, hsplit, happ, fun r hr => by simpa using hbefore r hr, rfl⟩
  · rintro ⟨before, rule, after, hsplit, happ, hbefore, rfl⟩
    have hf : contextRules.find? (fun rule => rule.applies m) = some rule :=
      List.find?_eq_some.mpr ⟨happ, before, after, hsplit, fun r hr => by simp [hbefore r hr]⟩
    rw [hf]
    rfl

theorem selectedKey_zenthink_site (m : JSString)
    (hz : includes m "zenthink".toList = true)
    (hs : includes m "website".toList = true ∨ includes m "site".toList = true) :
    selectedKey m = some "zenthink_website".toList := by
  have h : (includes m "zenthink".toList
      && (includes m "website".toList || includes m "site".toList)) = true := by
    rcases hs with hs | hs <;> simp only [hz, hs, Bool.or_true, Bool.true_or, Bool.and_self]
  unfold selectedKey contextRules
  simp only [List.find?, h]
  rfl

theorem selectedKey_pump_site (m : JSString)
    (hp : includes m "pump".toList = true)
    (hs : includes m "website".toList = true ∨ includes m "site".toList = true) :
    selectedKey m = some "zenthink_website".toList
      ∨ selectedKey m = some "pump_website".toList := by
  by_cases hz : includes m "zenthink".toList = true
  · exact Or.inl (selectedKey_zenthink_site m hz hs)
  · right
    have h1 : (includes m "zenthink".toList
        && (includes m "website".toList || includes m "site".toList)) = false := by
      have hz' : includes m "zenthink".toList = false := by
        cases hc : includes m "zenthink".toList
        · rfl
        · exact absurd hc hz
      rw [hz']
      rfl
    have h2 : (includes m "pump".toList
        && (includes m "website".toList || includes m "site".toList)) = true := by
      rcases hs with hs | hs <;> simp only [hp, hs, Bool.or_true, Bool.true_or, Bool.and_self]
    unfold selectedKey contextRules
    simp only [List.find?, h1, h2]
    rfl

theorem selectedKey_none (m : JSString) (h : ∀ rule ∈ contextRules, rule.applies m = false) :
    selectedKey m = none := by
  unfold selectedKey
  have hf : contextRules.find? (fun rule => rule.applies m) = none :=
    List.find?_eq_none.mpr (fun r hr => by simp [h r hr])
  rw [hf]
  rfl

/-! ## The text the context rules are tested on -/

/-- The test `includes` holds exactly when the second text occurs in the first. -/
theorem includes_iff (s sub : JSString) : includes s sub = true ↔ sub <:+: s := by
  unfold includes
  rw [List.any_eq_true, List.infix_iff_prefix_suffix]
  constructor
  · rintro ⟨t, ht, hp⟩
    exact ⟨t, List.isPrefixOf_iff_prefix.mp hp, (List.mem_tails t s).mp ht⟩
  · rintro ⟨t, hp, hs⟩
    exact ⟨t, (List.mem_tails t s).mpr hs, List.isPrefixOf_iff_prefix.mpr hp⟩

theorem isDigit_iff (c : Char) : isDigit c = true ↔ c ∈ digitAlphabet := by
  constructor
  · intro h
    have hc : c = Char.ofNat c.toNat := (Char.ofNat_toNat c).symm
    unfold isDigit at h
    simp only [Bool.and_eq_true, decide_eq_true_eq] at h
    obtain ⟨h1, h2⟩ := h
    have h1' : 48 ≤ c.toNat := h1
    have h2' : c.toNat ≤ 57 := h2
    generalize c.toNat = n at hc h1' h2'
    subst hc
    interval_cases n <;> decide
  · intro h
    have hall : ∀ d ∈ digitAlphabet, isDigit d = true := by decide
    exact hall c h

theorem validDigits_iff (digits : JSString) :
    ValidDigits digits ↔ digits ≠ [] ∧ ∀ d ∈ digits, isDigit d = true := by
  unfold ValidDigits
  constructor
  · rintro ⟨h1, h2⟩
    exact ⟨h1, fun c hc => (isDigit_iff c).mpr (h2 c hc)⟩
  · rintro ⟨h1, h2⟩
    exact ⟨h1, fun c hc => (isDigit_iff c).mp (h2 c hc)⟩

theorem matchMention_some (s : JSString) (n : Nat) (h : matchMention s = some n) :
    ∃ digits rest, ValidDigits digits ∧ s = mentionText digits ++ rest
      ∧ n = (mentionText digits).length := by
  unfold matchMention at h
  split at h
  · next rest =>
    split at h
    · next d ds tail htake hdrop =>
      cases h
      have hsplit := List.takeWhile_append_dropWhile isDigit rest
      rw [htake, hdrop] at hsplit
      refine ⟨d :: ds, tail, (validDigits_iff _).mpr ⟨by simp, ?_⟩, ?_, ?_⟩
      · intro c hc
        rw [← htake] at hc
        exact List.mem_takeWhile_imp hc
      · rw [← hsplit]
        simp [mentionText]
      · simp [mentionText]
    · cases h
  · cases h

theorem isDigit_close : isDigit '>' = false := by decide

theorem matchMention_text (digits rest : JSString) (h : ValidDigits digits) :
    matchMention (mentionText digits ++ rest) = some ((mentionText digits).length) := by
  obtain ⟨hne, hd⟩ := (validDigits_iff digits).mp h
  have h1 : List.takeWhile isDigit (digits ++ '>' :: rest) = digits := by
    rw [List.takeWhile_append_of_pos (fun a ha => hd a ha)]
    simp [isDigit_close]
  have h2 : List.dropWhile isDigit (digits ++ '>' :: rest) = '>' :: rest := by
    rw [List.dropWhile_append_of_pos (fun a ha => hd a ha)]
    simp [isDigit_close]
  cases digits with
  | nil => exact absurd rfl hne
  | cons c cs =>
    simp only [mentionText, List.cons_append, List.nil_append, List.append_assoc,
      matchMention]
    simp only [List.cons_append] at h1 h2
    rw [h1, h2]
    simp

theorem matchMention_none (s : JSString) (h : matchMention s = none) :
    ¬ StartsWithMention s := by
  rintro ⟨digits, rest, hvalid, rfl⟩
  rw [matchMention_text digits rest hvalid] at h
  cases h

theorem removeMentions_skip (xs t : JSString) :
    removeMentions (xs ++ t) xs.length = removeMentions t 0 := by
  induction xs with
  | nil => rfl
  | cons x xs ih =>
    show removeMentions (x :: (xs ++ t)) (xs.length + 1) = _
    simp only [removeMentions, ih]

/-- The mention stripping of the source drops exactly the user mentions. -/
theorem removeMentions_stripped :
    ∀ (n : Nat) (text : JSString), text.length ≤ n →
      MentionsStripped text (removeMentions text 0) := by
  intro n
  induction n with
  | zero =>
    intro text hlen
    have : text = [] := List.length_eq_zero.mp (Nat.le_zero.mp hlen)
    subst this
    exact MentionsStripped.done
  | succ n ih =>
    intro text hlen
    cases text with
    | nil => exact MentionsStripped.done
    | cons c t =>
      cases hm : matchMention (c :: t) with
      | none =>
        have hstep : removeMentions (c :: t) 0 = c :: removeMentions t 0 := by
          simp only [removeMentions, hm]
        rw [hstep]
        exact MentionsStripped.keep c t _ (matchMention_none _ hm)
          (ih t (by simpa using hlen))
      | some k =>
        obtain ⟨digits, rest, hvalid, hrest, hk⟩ := matchMention_some _ k hm
        have hstep : removeMentions (c :: t) 0 = removeMentions t (k - 1) := by
          simp only [removeMentions, hm]
        have ht : t = (['@'] ++ digits ++ ['>']) ++ rest := by
          have := congrArg List.tail hrest
          simpa [mentionText] using this
        have hk' : k - 1 = (['@'] ++ digits ++ ['>']).length := by
          rw [hk]
          simp [mentionText]
        have hlen' : rest.length ≤ n := by
          have h1 := congrArg List.length hrest
          simp [mentionText] at h1
          simp at hlen
          omega
        rw [hstep, hk', ht, removeMentions_skip, ← ht, hrest]
        exact MentionsStripped.mention digits rest _ hvalid (ih rest hlen')

/-- The text `userMessage` is the message without its mentions, trimmed. -/
theorem userMessage_stripped (content : JSString) :
    ∃ stripped, MentionsStripped content stripped ∧ userMessage content = trim stripped :=
  ⟨removeMentions content 0, removeMentions_stripped content.length content (le_refl _), rfl⟩

theorem not_mem_close_of_digits (digits : JSString) (h : ValidDigits digits) :
    '>' ∉ digits := by
  intro hmem
  have := h.2 _ hmem
  revert this
  decide

theorem takeWhile_until_gt (digits rest : JSString) (h : '>' ∉ digits) :
    (digits ++ '>' :: rest).takeWhile (fun c => c != '>') = digits := by
  induction digits with
  | nil => simp
  | cons c cs ih =>
    have hc : c ≠ '>' := fun e => h (by simp [e])
    have hcs : '>' ∉ cs := fun e => h (by simp [e])
    simp [hc, ih hcs]

/-- A mention text determines its digits. -/
theorem mentionText_inj (digits digits' rest rest' : JSString) (h : ValidDigits digits)
    (h' : ValidDigits digits') (e : mentionText digits ++ rest = mentionText digits' ++ rest') :
    digits = digits' ∧ rest = rest' := by
  have e2 : digits ++ '>' :: rest = digits' ++ '>' :: rest' := by
    simpa [mentionText] using e
  have hk : digits = digits' := by
    have := congrArg (List.takeWhile (fun c => c != '>')) e2
    rwa [takeWhile_until_gt digits rest (not_mem_close_of_digits digits h),
      takeWhile_until_gt digits' rest' (not_mem_close_of_digits digits' h')] at this
  subst hk
  exact ⟨rfl, by simpa using e2⟩

/-- The relation `MentionsStripped` determines the resulting text. -/
theorem mentionsStripped_unique (text out : JSString) (h : MentionsStripped text out) :
    ∀ out', MentionsStripped text out' → out' = out := by
  induction h with
  | done =>
    intro out' h'
    cases h' with
    | done => rfl
  | mention digits rest out hv _ ih =>
    intro out' h'
    generalize hs : mentionText digits ++ rest = s at h'
    cases h' with
    | done => simp [mentionText] at hs
    | mention digits' rest' out2 hv' hrest' =>
      obtain ⟨hk, hr⟩ := mentionText_inj digits digits' rest rest' hv hv' hs
      subst hk hr
      exact ih out' hrest'
    | keep c r out2 hnot _ =>
      exact absurd ⟨digits, rest, hv, hs.symm⟩ hnot
  | keep c rest out hnot _ ih =>
    intro out' h'
    generalize hs : c :: rest = s at h'
    cases h' with
    | done => cases hs
    | mention digits' rest' out2 hv' _ =>
      exact absurd ⟨digits', rest', hv', hs⟩ hnot
    | keep c' r out2 _ hrest' =>
      cases hs
      rw [ih out2 hrest']

/-- The method `trim` removes a run of white space from each end, and what is left
neither starts nor ends in white space. -/
theorem trim_spec (s : JSString) :
    ∃ pre post, s = pre ++ trim s ++ post ∧
      (∀ c ∈ pre, isWhiteSpace c = true) ∧ (∀ c ∈ post, isWhiteSpace c = true) ∧
      (∀ c ∈ (trim s).head?, isWhiteSpace c = false) ∧
      (∀ c ∈ (trim s).getLast?, isWhiteSpace c = false) := by
  refine ⟨s.takeWhile isWhiteSpace, (s.dropWhile isWhiteSpace).rtakeWhile isWhiteSpace,
    ?_, ?_, ?_, ?_, ?_⟩
  · have h1 : (s.dropWhile isWhiteSpace).rdropWhile isWhiteSpace
        ++ (s.dropWhile isWhiteSpace).rtakeWhile isWhiteSpace = s.dropWhile isWhiteSpace := by
      unfold List.rdropWhile List.rtakeWhile
      rw [← List.reverse_append, List.takeWhile_append_dropWhile, List.reverse_reverse]
    unfold trim
    rw [List.append_assoc, h1, List.takeWhile_append_dropWhile]
  · intro c hc
    exact List.mem_takeWhile_imp hc
  · intro c hc
    exact List.mem_rtakeWhile_imp hc
  · intro c hc
    cases ht : trim s with
    | nil => rw [ht] at hc; cases hc
    | cons a t =>
      rw [ht] at hc
      have e : a = c := by simpa using hc
      rw [← e]
      exact trim_head_not_ws s a t ht
  · intro c hc
    unfold trim at hc
    by_cases hne : (s.dropWhile isWhiteSpace).rdropWhile isWhiteSpace = []
    · rw [hne] at hc; cases hc
    · have hlast := List.rdropWhile_last_not isWhiteSpace (s.dropWhile isWhiteSpace) hne
      rw [List.getLast?_eq_getLast _ hne] at hc
      have e : ((s.dropWhile isWhiteSpace).rdropWhile isWhiteSpace).getLast hne = c := by
        simpa using hc
      rw [← e]
      simpa using hlast

/-- Each rule applies exactly when its keywords occur in the text as the specification
combines them. -/
theorem contextRules_conditions (m : JSString) :
    List.Forall₂ (fun (rule : ContextRule) (condition : Prop) =>
        rule.applies m = true ↔ condition) contextRules
      [ "zenthink".toList <:+: m ∧ ("website".toList <:+: m ∨ "site".toList <:+: m),
        "pump".toList <:+: m ∧ ("website".toList <:+: m ∨ "site".toList <:+: m),
        "zenthink".toList <:+: m ∨ "zen think".toList <:+: m,
        "parlay".toList <:+: m ∨ "sports".toList <:+: m,
        "pump".toList <:+: m ∨ "pill".toList <:+: m ∨ "arena".toList <:+: m,
        "trading".toList <:+: m ∨ "bot".toList <:+: m,
        "status".toList <:+: m ∨ "update".toList <:+: m ] := by
  unfold contextRules
  refine List.Forall₂.cons ?_ (List.Forall₂.cons ?_ (List.Forall₂.cons ?_
    (List.Forall₂.cons ?_ (List.Forall₂.cons ?_ (List.Forall₂.cons ?_
    (List.Forall₂.cons ?_ List.Forall₂.nil))))))
  all_goals
    simp only [Bool.and_eq_true, Bool.or_eq_true, includes_iff, or_assoc]

/-! ## Claim about the context rules -/

/-- C8: for every message, the context that `generateAIResponse` appends to the system
prompt is the snippet of the first rule, in the fixed order `zenthink_website`,
`pump_website`, `zenthink_overview`, `parlay_overview`, `pump_overview`,
`trading_overview`, `weekly_update_global`, that applies to the lower-cased,
mention-stripped text; at most one snippet is chosen; a compound rule wins over the
standalone rules of its keywords; and nothing is appended when no rule applies.
The text the rules are tested on is the message with every user mention `<@digits>`
dropped and every other code unit kept (the one text `MentionsStripped` relates to the
message), with the white space at both ends removed, then lower-cased; and each rule
applies exactly when its keywords occur in that text, combined as the rule says. -/
theorem generateAIResponse_context (systemPrompt : JSString) (R : JSString → JSString)
    (toLowerCase : JSString → JSString) (content : JSString) :
    systemContent systemPrompt R toLowerCase content
      = systemPrompt ++ (match selectedKey (toLowerCase (userMessage content)) with
          | some key => contextLabel ++ R key
          | none => []) ∧
    contextRules.map (fun rule => rule.key)
      = ["zenthink_website".toList, "pump_website".toList, "zenthink_overview".toList,
          "parlay_overview".toList, "pump_overview".toList, "trading_overview".toList,
          "weekly_update_global".toList] ∧
    (∀ m key, selectedKey m = some key ↔
      ∃ before rule after, contextRules = before ++ rule :: after ∧
        rule.applies m = true ∧ (∀ r ∈ before, r.applies m = false) ∧ rule.key = key) ∧
    (∀ m, includes m "zenthink".toList = true →
      (includes m "website".toList = true ∨ includes m "site".toList = true) →
      selectedKey m = some "zenthink_website".toList) ∧
    (∀ m, includes m "pump".toList = true →
      (includes m "website".toList = true ∨ includes m "site".toList = true) →
      selectedKey m = some "zenthink_website".toList
        ∨ selectedKey m = some "pump_website".toList) ∧
    (∀ m, (∀ rule ∈ contextRules, rule.applies m = false) →
      selectedKey m = none ∧ contextInfo R m = []) ∧
    (∃ stripped, MentionsStripped content stripped ∧
      (∀ other, MentionsStripped content other → other = stripped) ∧
      userMessage content = trim stripped) ∧
    (∀ s, ∃ before after, s = before ++ trim s ++ after ∧
      (∀ c ∈ before, isWhiteSpace c = true) ∧ (∀ c ∈ after, isWhiteSpace c = true) ∧
      (∀ c ∈ (trim s).head?, isWhiteSpace c = false) ∧
      (∀ c ∈ (trim s).getLast?, isWhiteSpace c = false)) ∧
    (∀ m, List.Forall₂ (fun (rule : ContextRule) (condition : Prop) =>
        rule.applies m = true ↔ condition) contextRules
      [ "zenthink".toList <:+: m ∧ ("website".toList <:+: m ∨ "site".toList <:+: m),
        "pump".toList <:+: m ∧ ("website".toList <:+: m ∨ "site".toList <:+: m),
        "zenthink".toList <:+: m ∨ "zen think".toList <:+: m,
        "parlay".toList <:+: m ∨ "sports".toList <:+: m,
        "pump".toList <:+: m ∨ "pill".toList <:+: m ∨ "arena".toList <:+: m,
        "trading".toList <:+: m ∨ "bot".toList <:+: m,
        "status".toList <:+: m ∨ "update".toList <:+: m ]) := by
  refine ⟨?_, rfl, selectedKey_eq_some_iff, selectedKey_zenthink_site,
    selectedKey_pump_site, ?_, ?_, trim_spec, contextRules_conditions⟩
  · unfold systemContent
    rw [contextInfo_eq_selected]
  · intro m h
    have hn := selectedKey_none m h
    refine ⟨hn, ?_⟩
    rw [contextInfo_eq_selected, hn]
  · obtain ⟨stripped, hs, he⟩ := userMessage_stripped content
    exact ⟨stripped, hs, mentionsStripped_unique content stripped hs, he⟩

/-- The message `<@12345> Where is the ZenThink site?` with an ASCII lower-casing: the
compound rule is chosen, not `zenthink_overview`. -/
theorem generateAIResponse_context_example :
    userMessage "<@12345> Where is the ZenThink site?".toList
      = "Where is the ZenThink site?".toList ∧
    selectedKey "where is the zenthink site?".toList = some "zenthink_website".toList := by
  decide

/-! ## `processCommand` -/

theorem processCommand_of_try_ok (commandName : JSString)
    (commands : List (JSString × Handler)) (t t1 : Transport) (result : JSValue)
    (invoked : List JSString)
    (h : processCommandTry commandName commands t = (.ok result, t1, invoked)) :
    processCommand commandName commands t
      = { outcome := .ok result, transport := t1, invoked := invoked } := by
  unfold processCommand
  rw [h]

theorem processCommand_of_try_error (commandName : JSString)
    (commands : List (JSString × Handler)) (t t1 : Transport) (error : JSValue)
    (invoked : List JSString)
    (h : processCommandTry commandName commands t = (.error error, t1, invoked)) :
    processCommand commandName commands t
      = (match reply errorReply t1 with
         | (.error e, t2) => { outcome := .error e, transport := t2, invoked := invoked }
         | (.ok _, t2) =>
           { outcome := (getMessage error).map failureResult, transport := t2,
             invoked := invoked }) := by
  unfold processCommand
  rw [h]

theorem processCommand_invoked (commandName : JSString)
    (commands : List (JSString × Handler)) (t : Transport) :
    (processCommand commandName commands t).invoked
      = (processCommandTry commandName commands t).2.2 := by
  rcases htry : processCommandTry commandName commands t with ⟨outcome, t1, invoked⟩
  cases outcome with
  | ok result => rw [processCommand_of_try_ok _ _ _ _ _ _ htry]
  | error error =>
    rw [processCommand_of_try_error _ _ _ _ _ _ htry]
    rcases hr : reply errorReply t1 with ⟨r, t2⟩
    cases r <;> rfl

theorem reply_delivered (text : JSString) (t : Transport) (h : (reply text t).1 = .ok ()) :
    ∃ t1, reply text t = (.ok (), t1) ∧ t1.delivered = t.delivered ++ [text] := by
  unfold reply at h ⊢
  rcases hf : t.faults with _ | ⟨f, rest⟩
  · exact ⟨_, rfl, rfl⟩
  · cases f with
    | none => exact ⟨_, rfl, rfl⟩
    | some e =>
      rw [hf] at h
      cases h

theorem processCommandTry_unknown (commandName : JSString)
    (commands : List (JSString × Handler)) (t : Transport)
    (hunknown : commands.lookup commandName = none) :
    processCommandTry commandName commands t
      = (match reply (unknownCommandReply commandName) t with
         | (.ok _, t1) => (.ok unknownCommandResult, t1, [])
         | (.error e, t1) => (.error e, t1, [])) := by
  unfold processCommandTry
  rw [hunknown]

/-! ## Claims about `processCommand` -/

/-- C9 fails as stated: with an empty command map, the unknown name `nope` and a
message whose reply is rejected with `Error: Missing Permissions`, `processCommand`
invokes no handler but returns `{success: false, reason: 'Missing Permissions'}`, not
`{success: false, reason: 'Unknown command'}`: the rejected reply lands in the `catch`
block. -/
theorem processCommand_unknown_reply_rejected :
    List.lookup "nope".toList ([] : List (JSString × Handler)) = none ∧
    (processCommand "nope".toList [] rejectingTransport).invoked = [] ∧
    (processCommand "nope".toList [] rejectingTransport).outcome
      = .ok (failureResult (.string "Missing Permissions".toList)) ∧
    (processCommand "nope".toList [] rejectingTransport).outcome ≠ .ok unknownCommandResult := by
  refine ⟨rfl, rfl, rfl, ?_⟩
  intro h
  have h2 : failureResult (.string "Missing Permissions".toList) = unknownCommandResult :=
    Except.ok.inj h
  simp [failureResult, unknownCommandResult] at h2

/-- C9 (amended): for every command map and every name that is not a key of the map,
`processCommand` invokes no handler, and when the reply that announces the unknown
command is delivered it returns `{success: false, reason: 'Unknown command'}`, that
reply being the only thing sent. -/
theorem processCommand_unknown (commandName : JSString) (commands : List (JSString × Handler))
    (t : Transport) (hunknown : commands.lookup commandName = none) :
    (processCommand commandName commands t).invoked = [] ∧
    ((reply (unknownCommandReply commandName) t).1 = .ok () →
      (processCommand commandName commands t).outcome = .ok unknownCommandResult ∧
      (processCommand commandName commands t).transport.delivered
        = t.delivered ++ [unknownCommandReply commandName]) := by
  have htry := processCommandTry_unknown commandName commands t hunknown
  constructor
  · rw [processCommand_invoked, htry]
    rcases hr : reply (unknownCommandReply commandName) t with ⟨r, t1⟩
    cases r <;> rfl
  · intro hdelivered
    obtain ⟨t1, hr, hd⟩ := reply_delivered _ t hdelivered
    rw [hr] at htry
    rw [processCommand_of_try_ok _ _ _ _ _ _ htry]
    exact ⟨rfl, hd⟩

/-- C9 (amended), at the registered names `about` and `help`, the unknown name `nope`
and a working transport. -/
theorem processCommand_unknown_witness :
    List.lookup "nope".toList
      [("about".toList, throwingHandler), ("help".toList, throwingHandler)] = none ∧
    ((processCommand "nope".toList
        [("about".toList, throwingHandler), ("help".toList, throwingHandler)]
        workingTransport).invoked = [] ∧
     ((reply (unknownCommandReply "nope".toList) workingTransport).1 = .ok () →
      (processCommand "nope".toList
        [("about".toList, throwingHandler), ("help".toList, throwingHandler)]
        workingTransport).outcome = .ok unknownCommandResult ∧
      (processCommand "nope".toList
        [("about".toList, throwingHandler), ("help".toList, throwingHandler)]
        workingTransport).transport.delivered
        = workingTransport.delivered ++ [unknownCommandReply "nope".toList])) :=
  ⟨rfl, processCommand_unknown _ _ _ rfl⟩

/-- C10 fails as stated: the registered handler of `boom` raises `Error: boom`, the
reply sent from the `catch` block is rejected with `Error: Missing Permissions`, and
that second error is propagated to the caller of `processCommand`; no result is
returned. -/
theorem processCommand_propagates_reply_error :
    List.lookup "boom".toList [("boom".toList, throwingHandler)] = some throwingHandler ∧
    throwingHandler rejectingTransport
      = (.error (.error "Error".toList "boom".toList), rejectingTransport) ∧
    (processCommand "boom".toList [("boom".toList, throwingHandler)]
        rejectingTransport).outcome
      = .error (.error "Error".toList "Missing Permissions".toList) :=
  ⟨rfl, rfl, rfl⟩

/-- C10 (amended): for every registered command whose handler raises an `Error`, if the
reply that `processCommand` sends from its `catch` block is delivered, nothing is
propagated to the caller: `processCommand` returns `{success: false, reason}` with
`reason` the message of the raised error, after invoking that handler only. -/
theorem processCommand_handler_error (commandName : JSString)
    (commands : List (JSString × Handler)) (t t1 : Transport) (handler : Handler)
    (name message : JSString)
    (hregistered : commands.lookup commandName = some handler)
    (hraises : handler t = (.error (.error name message), t1))
    (hdelivered : (reply errorReply t1).1 = .ok ()) :
    (processCommand commandName commands t).outcome
      = .ok (failureResult (.string message)) ∧
    (processCommand commandName commands t).invoked = [commandName] ∧
    (processCommand commandName commands t).transport.delivered
      = t1.delivered ++ [errorReply] := by
  have htry : processCommandTry commandName commands t
      = (.error (.error name message), t1, [commandName]) := by
    unfold processCommandTry
    rw [hregistered]
    simp only [hraises]
  obtain ⟨t2, hr, hd⟩ := reply_delivered _ t1 hdelivered
  rw [processCommand_of_try_error _ _ _ _ _ _ htry, hr]
  exact ⟨rfl, rfl, hd⟩

/-- C10 (amended), at the handler that raises `Error: boom` and a working transport. -/
theorem processCommand_handler_error_witness :
    List.lookup "boom".toList [("boom".toList, throwingHandler)] = some throwingHandler ∧
    throwingHandler workingTransport
      = (.error (.error "Error".toList "boom".toList), workingTransport) ∧
    (reply errorReply workingTransport).1 = .ok () ∧
    ((processCommand "boom".toList [("boom".toList, throwingHandler)]
        workingTransport).outcome = .ok (failureResult (.string "boom".toList)) ∧
     (processCommand "boom".toList [("boom".toList, throwingHandler)]
        workingTransport).invoked = ["boom".toList] ∧
     (processCommand "boom".toList [("boom".toList, throwingHandler)]
        workingTransport).transport.delivered = workingTransport.delivered ++ [errorReply]) :=
  ⟨rfl, rfl, rfl,
   processCommand_handler_error "boom".toList [("boom".toList, throwingHandler)]
     workingTransport workingTransport throwingHandler "Error".toList "boom".toList
     rfl rfl rfl⟩

/-! ## Hot reload -/

/-- Nothing leaves the timer callback. -/
theorem hotReloadTick_raises_nothing (parse : JSString → Except JSValue (Option Bundle))
    (file : BundleFile) (kb : KnowledgeBase) : (hotReloadTick parse file kb).raised = none := by
  unfold hotReloadTick
  cases file.stat with
  | error e => rfl
  | ok lastModified =>
    simp only
    split_ifs
    · cases (loadBundle parse file kb).2 <;> rfl
    · rfl

/-- A reload that fails before the parsed value is assigned (the file cannot be read,
or its text is not valid JSON) leaves the store as it was. -/
theorem loadBundle_early_failure (parse : JSString → Except JSValue (Option Bundle))
    (file : BundleFile) (kb : KnowledgeBase)
    (h : (∃ e, file.read = .error e) ∨ (∃ d e, file.read = .ok d ∧ parse d = .error e)) :
    (loadBundle parse file kb).1 = kb ∧ (loadBundle parse file kb).2 ≠ none := by
  unfold loadBundle
  rcases h with ⟨e, he⟩ | ⟨d, e, hd, he⟩
  · rw [he]; exact ⟨rfl, by simp⟩
  · rw [hd]; simp [he]

/-- A tick on which the file cannot be inspected, cannot be read, or does not hold
valid JSON leaves the bundle and the recorded modification time as they were. -/
theorem hotReloadTick_early_failure (parse : JSString → Except JSValue (Option Bundle))
    (file : BundleFile) (kb : KnowledgeBase)
    (h : (∃ e, file.stat = .error e) ∨ (∃ e, file.read = .error e)
      ∨ (∃ d e, file.read = .ok d ∧ parse d = .error e)) :
    (hotReloadTick parse file kb).kb = kb := by
  unfold hotReloadTick
  rcases h with ⟨e, he⟩ | h
  · rw [he]
  · obtain ⟨h1, h2⟩ := loadBundle_early_failure parse file kb h
    cases file.stat with
    | error e => rfl
    | ok lastModified =>
      simp only
      split_ifs
      · cases h3 : (loadBundle parse file kb).2 with
        | none => exact absurd h3 h2
        | some e => exact h1
      · rfl

/-- A tick that observes the recorded modification time, when that time is not `0`,
performs no reload and leaves the store as it was. -/
theorem hotReloadTick_same_mtime (parse : JSString → Except JSValue (Option Bundle))
    (file : BundleFile) (kb : KnowledgeBase) (m : Int) (hm : m ≠ 0)
    (hrec : kb.lastModified = some m) (hstat : file.stat = .ok m) :
    hotReloadTick parse file kb = { kb := kb, reloaded := false, raised := none } := by
  unfold hotReloadTick
  rw [hstat]
  simp [hrec, notRecorded, newerThan, hm]

/-- A tick on which the file holds text that is not valid JSON leaves the store as it
was, whatever the modification time. -/
theorem hotReloadTick_invalid_json (mtime : Int) (kb : KnowledgeBase) :
    (hotReloadTick parseRejects (readableFile mtime brokenLinkText) kb).kb = kb :=
  hotReloadTick_early_failure _ _ _ (Or.inr (Or.inr ⟨brokenLinkText, _, rfl, rfl⟩))

/-! ## Claims about hot reload -/

/-- C12: the store serves `scenarioBundle`; the file has a newer modification time and
parses to `brokenLinkBundle`, whose link `docs` is an object with an own `toString`
entry.  The reload fails (`loadBundle` throws while `interpolateLinks` converts that
link), nothing leaves the tick, but the active bundle is no longer the previous one: it
is the new bundle, with the first response already rewritten and the second not. -/
theorem hotReloadTick_failed_reload_replaces_bundle :
    (servingStore 1000).bundle = some scenarioBundle ∧
    (loadBundle (parseAs brokenLinkText brokenLinkBundle) (readableFile 2000 brokenLinkText) (servingStore 1000)).2
      = some (.error "Error".toList
          "Knowledge base initialization failed: Cannot convert object to primitive value".toList) ∧
    (hotReloadTick (parseAs brokenLinkText brokenLinkBundle) (readableFile 2000 brokenLinkText) (servingStore 1000)).raised
      = none ∧
    (hotReloadTick (parseAs brokenLinkText brokenLinkBundle) (readableFile 2000 brokenLinkText) (servingStore 1000)).kb.bundle
      = some { brokenLinkBundle with
          responses := some [("greet".toList, .string "Hi https://f3.example".toList),
            ("docs".toList, .string "See \x7blinks.docs\x7d".toList)] } ∧
    (hotReloadTick (parseAs brokenLinkText brokenLinkBundle) (readableFile 2000 brokenLinkText) (servingStore 1000)).kb.bundle
      ≠ (servingStore 1000).bundle := by
  refine ⟨rfl, rfl, rfl, rfl, ?_⟩
  intro h
  have h2 := congrArg (fun b => (b.bind (fun x => x.links)).isSome) h
  exact absurd h2 (by decide)

/-- C13: the store has recorded the modification time `0` and the tick observes the
same time `0`; the test `!this.lastModified` holds for `0`, so the tick reloads and the
bundle is replaced by the one parsed from the file. -/
theorem hotReloadTick_reloads_at_zero :
    (servingStore 0).lastModified = some 0 ∧
    (readableFile 0 siteText).stat = .ok 0 ∧
    (hotReloadTick (parseAs siteText siteBundle) (readableFile 0 siteText) (servingStore 0)).reloaded = true ∧
    (hotReloadTick (parseAs siteText siteBundle) (readableFile 0 siteText) (servingStore 0)).kb.bundle
      = some { siteBundle with
          responses := some [("site".toList,
            .string "Visit https://f3.example or \x7blinks.docs\x7d.".toList),
            ("n".toList, .number 7)] } ∧
    (hotReloadTick (parseAs siteText siteBundle) (readableFile 0 siteText) (servingStore 0)).kb.bundle
      ≠ (servingStore 0).bundle := by
  refine ⟨rfl, rfl, rfl, rfl, ?_⟩
  intro h
  have h2 := congrArg (fun b => (b.bind (fun x => x.links)).isSome) h
  exact absurd h2 (by decide)

/-! ## `handleAIResponse` -/

theorem handleAIResponse_of_try_ok (ctx : AIContext) (t t1 : Transport) (result : JSValue)
    (h : handleAIResponseTry ctx t = (.ok result, t1)) :
    handleAIResponse ctx t = { outcome := .ok result, transport := t1 } := by
  unfold handleAIResponse
  rw [h]

/-- Without an API client the failure is returned at once and nothing is sent. -/
theorem handleAIResponse_not_configured (ctx : AIContext) (t : Transport)
    (h : ctx.openaiConfigured = false) :
    handleAIResponse ctx t
      = { outcome := .ok (failureResult (.string "OpenAI API key not configured".toList)),
          transport := t } := by
  apply handleAIResponse_of_try_ok
  unfold handleAIResponseTry
  simp [h]

/-- Outside a server the failure is returned at once and nothing is sent. -/
theorem handleAIResponse_outside_server (ctx : AIContext) (t : Transport)
    (hc : ctx.openaiConfigured = true) (h : ctx.inGuild = false) :
    handleAIResponse ctx t
      = { outcome := .ok (failureResult (.string "AI responses only available in servers".toList)),
          transport := t } := by
  apply handleAIResponse_of_try_ok
  unfold handleAIResponseTry
  simp [hc, h]

/-- The `catch` block sends nothing: when the `try` block throws, the transport is
left as the `try` block left it. -/
theorem handleAIResponse_catch_sends_nothing (ctx : AIContext) (t t1 : Transport)
    (error : JSValue) (h : handleAIResponseTry ctx t = (.error error, t1)) :
    (handleAIResponse ctx t).transport = t1 := by
  unfold handleAIResponse
  rw [h]

/-! ## Claim about `handleAIResponse` -/

/-- C11 fails as stated: a call with no API client configured ends in the failure
result `OpenAI API key not configured` and nothing has been sent; and a call during
which the rate limiter throws ends, through the `catch` block, in the failure result
`AI response failed: limiter down`, again with nothing sent, on a transport that would
have delivered any reply. -/
theorem handleAIResponse_failure_without_reply :
    (handleAIResponse unconfiguredContext workingTransport).outcome
      = .ok (failureResult (.string "OpenAI API key not configured".toList)) ∧
    (handleAIResponse unconfiguredContext workingTransport).transport = workingTransport ∧
    (handleAIResponse limiterDownContext workingTransport).outcome
      = .ok (failureResult (.string "AI response failed: limiter down".toList)) ∧
    (handleAIResponse limiterDownContext workingTransport).transport = workingTransport :=
  ⟨rfl, rfl, rfl, rfl⟩

/-- C11 (amended): for every call of `handleAIResponse` with the API client configured
and the message in a server that ends in a failure result because the user is rate
limited, or because the completion failed or was empty, the notice of that failure (the
rate limit embed, or the apology) has been delivered before the result is returned,
provided the transport accepts it. -/
theorem handleAIResponse_failure_replies (ctx : AIContext) (t : Transport)
    (rateLimitResult : RateLimitResult) (notice : JSString) (reason : JSValue)
    (hconfigured : ctx.openaiConfigured = true) (hguild : ctx.inGuild = true)
    (hrate : ctx.processMessage = .ok rateLimitResult)
    (hpath : (rateLimitResult.shouldRateLimit = true ∧
        ctx.createErrorEmbed "Rate Limited".toList
          (waitNotice rateLimitResult.remainingCooldown) = .ok notice ∧
        reason = rateLimitResult.reason)
      ∨ (rateLimitResult.shouldRateLimit = false ∧
        generateAIResponse ctx.completion = .ok (.failure reason) ∧ notice = apology))
    (hsent : (reply notice t).1 = .ok ()) :
    (handleAIResponse ctx t).outcome = .ok (failureResult reason) ∧
    (handleAIResponse ctx t).transport.delivered = t.delivered ++ [notice] := by
  obtain ⟨t1, hr, hd⟩ := reply_delivered notice t hsent
  have htry : handleAIResponseTry ctx t = (.ok (failureResult reason), t1) := by
    unfold handleAIResponseTry
    rcases hpath with ⟨hlim, hembed, hreason⟩ | ⟨hlim, hgen, hnotice⟩
    · simp only [hconfigured, hguild, hrate, hlim, hembed, hr, hreason]
      rfl
    · subst hnotice
      simp only [hconfigured, hguild, hrate, hlim, hgen, hr]
      rfl
  rw [handleAIResponse_of_try_ok ctx t t1 _ htry]
  exact ⟨rfl, hd⟩

/-- C11 (amended), at a rate limited user and a working transport. -/
theorem handleAIResponse_failure_replies_witness :
    rateLimitedContext.openaiConfigured = true ∧ rateLimitedContext.inGuild = true ∧
    (reply "Rate Limited: Please wait 5 seconds before asking again.".toList
      workingTransport).1 = .ok () ∧
    ((handleAIResponse rateLimitedContext workingTransport).outcome
        = .ok (failureResult (.string "Cooldown".toList)) ∧
     (handleAIResponse rateLimitedContext workingTransport).transport.delivered
        = workingTransport.delivered
          ++ ["Rate Limited: Please wait 5 seconds before asking again.".toList]) :=
  ⟨rfl, rfl, rfl,
   handleAIResponse_failure_replies rateLimitedContext workingTransport
     { shouldRateLimit := true, remainingCooldown := 4200, reason := .string "Cooldown".toList }
     "Rate Limited: Please wait 5 seconds before asking again.".toList
     (.string "Cooldown".toList) rfl rfl rfl (Or.inl ⟨rfl, rfl, rfl⟩) rfl⟩

/-! ## `handleMessage` -/

theorem splitOnRuns_head (p : Char → Bool) (s : JSString) :
    ∃ rest, splitOnRuns p s false = s.takeWhile (fun c => !p c) :: rest := by
  induction s with
  | nil => exact ⟨[], rfl⟩
  | cons c t ih =>
    obtain ⟨rest, hrest⟩ := ih
    by_cases hc : p c = true
    · exact ⟨splitOnRuns p t true, by simp [splitOnRuns, hc]⟩
    · refine ⟨rest, ?_⟩
      simp [splitOnRuns, hc, hrest]

theorem commandNameOf_eq (toLowerCase : JSString → JSString) (rest : JSString) :
    commandNameOf toLowerCase ('!' :: rest) = toLowerCase (firstSpaceToken (trim rest)) := by
  unfold commandNameOf commandArgs firstSpaceToken
  obtain ⟨tail, h⟩ := splitOnRuns_head isSpace (trim rest)
  simp only [List.drop_succ_cons, List.drop_zero, h, List.headD_cons]


/-! ## Claim about `handleMessage` -/

/-- C14 fails as stated: for the non-bot message `!Help<TAB>me` the first
whitespace-delimited token after the prefix is `Help`, and `help` is a registered
command, but the name passed to `processCommand` is `help<TAB>me`: the tab does not
end the token.  No handler is invoked and the unknown-command notice is sent. -/
theorem handleMessage_tab_in_name :
    firstWhiteSpaceToken (trim "Help\tme".toList) = "Help".toList ∧
    List.lookup "help".toList (registerCommands sampleHandlers)
      = some sampleHandlers.handleHelpCommand ∧
    (handleMessage asciiLowerCase sampleHandlers
        { authorIsBot := false, content := "!Help\tme".toList } workingTransport).map
      (fun run => (run.1, run.2.invoked, run.2.transport.delivered))
      = some ("help\tme".toList, [], [unknownCommandReply "help\tme".toList]) ∧
    "help\tme".toList ≠ asciiLowerCase "Help".toList :=
  ⟨by decide, rfl, rfl, by decide⟩

/-- C14 (amended): for every non-bot message whose content starts with the prefix `!`,
the command name that `handleMessage` passes to `processCommand` is the first token of
the trimmed text after the prefix, where only runs of the space character U+0020
delimit tokens (a tab or a newline inside the text is part of the token), converted to
lower case; hence two such messages whose first tokens have the same lower-case form
are dispatched alike. -/
theorem handleMessage_command_name (toLowerCase : JSString → JSString)
    (handlers : CommandHandlers) (message : Message) (t : Transport) (rest : JSString)
    (hbot : message.authorIsBot = false) (hcontent : message.content = '!' :: rest) :
    handleMessage toLowerCase handlers message t
      = some (toLowerCase (firstSpaceToken (trim rest)),
          processCommand (toLowerCase (firstSpaceToken (trim rest)))
            (registerCommands handlers) t) ∧
    ∀ other : Message, ∀ rest', other.authorIsBot = false → other.content = '!' :: rest' →
      toLowerCase (firstSpaceToken (trim rest')) = toLowerCase (firstSpaceToken (trim rest)) →
      handleMessage toLowerCase handlers other t
        = handleMessage toLowerCase handlers message t := by
  have key : ∀ (msg : Message) (r : JSString), msg.authorIsBot = false →
      msg.content = '!' :: r →
      handleMessage toLowerCase handlers msg t
        = some (toLowerCase (firstSpaceToken (trim r)),
            processCommand (toLowerCase (firstSpaceToken (trim r)))
              (registerCommands handlers) t) := by
    intro msg r hb hc
    unfold handleMessage
    simp only [hb, hc, commandNameOf_eq]
    rfl
  refine ⟨key message rest hbot hcontent, ?_⟩
  intro other rest' hb hc heq
  rw [key other rest' hb hc, key message rest hbot hcontent, heq]

/-- C14 (amended), at the messages `!Help me` and `!  HELP`. -/
theorem handleMessage_command_name_witness :
    ({ authorIsBot := false, content := "!Help me".toList } : Message).authorIsBot = false ∧
    ({ authorIsBot := false, content := "!Help me".toList } : Message).content
      = '!' :: "Help me".toList ∧
    (handleMessage asciiLowerCase sampleHandlers
        { authorIsBot := false, content := "!Help me".toList } workingTransport
      = some (asciiLowerCase (firstSpaceToken (trim "Help me".toList)),
          processCommand (asciiLowerCase (firstSpaceToken (trim "Help me".toList)))
            (registerCommands sampleHandlers) workingTransport) ∧
     ∀ other : Message, ∀ rest', other.authorIsBot = false → other.content = '!' :: rest' →
      asciiLowerCase (firstSpaceToken (trim rest'))
        = asciiLowerCase (firstSpaceToken (trim "Help me".toList)) →
      handleMessage asciiLowerCase sampleHandlers other workingTransport
        = handleMessage asciiLowerCase sampleHandlers
            { authorIsBot := false, content := "!Help me".toList } workingTransport) :=
  ⟨rfl, rfl,
   handleMessage_command_name asciiLowerCase sampleHandlers
     { authorIsBot := false, content := "!Help me".toList } workingTransport
     "Help me".toList rfl rfl⟩

/-- The messages `!Help me` and `!  HELP` both invoke the handler of `help`. -/
theorem handleMessage_help_example :
    (handleMessage asciiLowerCase sampleHandlers
        { authorIsBot := false, content := "!Help me".toList } workingTransport).map
      (fun run => (run.1, run.2.invoked)) = some ("help".toList, ["help".toList]) ∧
    (handleMessage asciiLowerCase sampleHandlers
        { authorIsBot := false, content := "!  HELP".toList } workingTransport).map
      (fun run => (run.1, run.2.invoked)) = some ("help".toList, ["help".toList]) :=
  ⟨rfl, rfl⟩

end F3Bot
